import Mathlib

/-!
Verification development for the lefocus session/segmentation core.

The Rust sources under src-tauri are embedded shallowly:
* timestamps (chrono DateTime with millisecond precision) are modelled as
  integers counting milliseconds; chrono Duration.num_seconds truncates
  toward zero, modelled by Int.tdiv;
* f64 arithmetic in the scoring module is idealised as real arithmetic;
* Uuid.new_v4 draws are modelled by an oracle gen : Nat -> String together
  with an explicit call counter threaded through the pipeline, one
  increment per draw, in source call order;
* the per-instance randomized iteration order of the std HashMap built by
  most_common_window_title is modelled by an oracle
  ord : Nat -> List String -> List String giving, per call site (indexed
  like the uuid counter), the order in which the map's key set is visited;
  a run of the program corresponds to an oracle whose values permute the
  key set.
-/

set_option maxHeartbeats 1000000

namespace Lefocus

/-- chrono Duration.num_seconds on a millisecond count: whole seconds,
truncated toward zero. -/
def chronoNumSeconds (ms : Int) : Int := ms.tdiv 1000

/-- Cast of an i64 value to u64 with two's-complement wrap, as Rust
`as u64` does. -/
def u64ofI64 (x : Int) : Nat := (x % (2 ^ 64 : Int)).toNat

/-- Capture cadence of the sensing loop (loop_worker.rs,
CAPTURE_INTERVAL_SECS). -/
def CAPTURE_INTERVAL_SECS : Int := 5

/-- Window metadata attached to a reading (macos_bridge.rs WindowMetadata;
the bounds field is never read by the embedded components and is omitted). -/
structure WindowMetadata where
  window_id : Nat
  bundle_id : String
  title : String
  owner_name : String
deriving Repr

instance : Inhabited WindowMetadata := ⟨⟨0, "", "", ""⟩⟩

/-- One sensing snapshot (db/models/context_reading.rs ContextReading).
timestamp is in milliseconds; ocr_confidence is an f64 idealised as a real. -/
structure ContextReading where
  id : Option Int
  session_id : String
  timestamp : Int
  window_metadata : WindowMetadata
  phash : Option String
  ocr_text : Option String
  ocr_confidence : Option ℝ
  ocr_word_count : Option Nat

instance : Inhabited ContextReading :=
  ⟨⟨none, "", 0, default, none, none, none, none⟩⟩

/-- Segment classification (db/models/segment.rs SegmentType). -/
inductive SegmentType where
  | stable
  | transitioning
  | distracted
deriving DecidableEq, Repr

/-- A scored activity segment (db/models/segment.rs Segment). Score fields
are f64 values idealised as reals. -/
structure Segment where
  id : String
  session_id : String
  start_time : Int
  end_time : Int
  duration_secs : Int
  bundle_id : String
  app_name : Option String
  window_title : Option String
  segment_type : SegmentType
  confidence : ℝ
  duration_score : Option ℝ
  stability_score : Option ℝ
  visual_clarity_score : Option ℝ
  ocr_quality_score : Option ℝ
  reading_count : Int
  unique_phash_count : Option Int
  segment_summary : Option String

instance : Inhabited Segment :=
  ⟨⟨"", "", 0, 0, 0, "", none, none, .stable, 0, none, none, none, none, 0,
    none, none⟩⟩

/-- A brief foreign-app excursion folded into a host segment
(db/models/segment.rs Interruption). -/
structure Interruption where
  id : String
  segment_id : String
  bundle_id : String
  app_name : Option String
  timestamp : Int
  duration_secs : Int
deriving DecidableEq, Repr

/-- Tunable thresholds (segmentation/config.rs SegmentationConfig). The
fields transition_window_secs, transition_switch_threshold and
distracted_threshold_secs are read by algorithm.rs but their declaration is
missing from the source snapshot; they are modelled from the code comments
(3+ switches within 60 seconds; transitions of at least 3 minutes become
Distracted). -/
structure SegmentationConfig where
  min_segment_duration_secs : Nat
  sandwich_max_duration_secs : Nat
  weight_duration : ℝ
  weight_stability : ℝ
  weight_visual : ℝ
  weight_ocr : ℝ
  transition_window_secs : Nat
  transition_switch_threshold : Nat
  distracted_threshold_secs : Nat

/-- Default configuration (segmentation/config.rs Default impl, plus the
modelled transition constants). -/
def SegmentationConfig.default : SegmentationConfig :=
  { min_segment_duration_secs := 30
    sandwich_max_duration_secs := 12
    weight_duration := 0.30
    weight_stability := 0.40
    weight_visual := 0.15
    weight_ocr := 0.15
    transition_window_secs := 60
    transition_switch_threshold := 3
    distracted_threshold_secs := 180 }

/-- A group of consecutive readings with the same bundle_id
(segmentation/algorithm.rs ReadingGroup). -/
structure ReadingGroup where
  bundle_id : String
  app_name : String
  readings : List ContextReading
  start_time : Int
  end_time : Int
  is_transitioning : Bool

instance : Inhabited ReadingGroup := ⟨⟨"", "", [], 0, 0, false⟩⟩

/-- ReadingGroup.duration_secs. -/
def ReadingGroup.duration_secs (g : ReadingGroup) : Int :=
  chronoNumSeconds (g.end_time - g.start_time)

/-- ReadingGroup.reading_count. -/
def ReadingGroup.reading_count (g : ReadingGroup) : Nat := g.readings.length

/-- Helper pairing a segment with the readings it was built from
(segmentation/algorithm.rs SegmentWithReadings). -/
structure SegmentWithReadings where
  segment : Segment
  readings : List ContextReading

/-- Fresh group started from one reading (group_readings, else branch). -/
def newGroup (r : ContextReading) : ReadingGroup :=
  { bundle_id := r.window_metadata.bundle_id
    app_name := r.window_metadata.owner_name
    readings := [r]
    start_time := r.timestamp
    end_time := r.timestamp
    is_transitioning := false }

/-- Loop body of group_readings: extend the current group while the
bundle_id matches, otherwise push it and start a new one. -/
def group_readings_aux (cur : ReadingGroup) :
    List ContextReading → List ReadingGroup
  | [] => [cur]
  | r :: rest =>
    if cur.bundle_id = r.window_metadata.bundle_id then
      group_readings_aux
        { cur with readings := cur.readings ++ [r], end_time := r.timestamp }
        rest
    else
      cur :: group_readings_aux (newGroup r) rest

/-- Group consecutive readings by bundle_id
(segmentation/algorithm.rs group_readings). -/
def group_readings : List ContextReading → List ReadingGroup
  | [] => []
  | r :: rest => group_readings_aux (newGroup r) rest

/-- Dwell times between consecutive groups, in whole seconds, keeping only
positive ones (calculate_median_dwell, collection loop). -/
def dwellTimes : List ReadingGroup → List Int
  | [] => []
  | [_] => []
  | g :: h :: rest =>
    let d := chronoNumSeconds (h.start_time - g.end_time)
    if 0 < d then d :: dwellTimes (h :: rest) else dwellTimes (h :: rest)

/-- Insert into a sorted list of integers, keeping order. -/
def insertSorted (x : Int) : List Int → List Int
  | [] => [x]
  | y :: ys => if x ≤ y then x :: y :: ys else y :: insertSorted x ys

/-- Ascending sort of an integer list (Vec sort in the source; on integers
every correct sort produces the same list, and insertion sort keeps kernel
reduction structural). -/
def sortInts (l : List Int) : List Int := l.foldr insertSorted []

/-- Median dwell time in seconds between app switches
(segmentation/algorithm.rs calculate_median_dwell). -/
def calculate_median_dwell (groups : List ReadingGroup) : Option Int :=
  if groups.length < 2 then none
  else
    let ds := dwellTimes groups
    if ds = [] then none
    else
      let sorted := sortInts ds
      some (sorted.getD (sorted.length / 2) 0)

/-- Number of switches between consecutive groups of a window
(detect_transitions, switch counting loop). -/
def countSwitches : List ReadingGroup → Nat
  | [] => 0
  | [_] => 0
  | g :: h :: rest =>
    (if g.bundle_id ≠ h.bundle_id then 1 else 0) + countSwitches (h :: rest)

/-- Mark groups transitioning while their start lies within the window,
stopping at the first one beyond it (detect_transitions, marking loop). -/
def markWithinWindow (windowEnd : Int) : List ReadingGroup → List ReadingGroup
  | [] => []
  | g :: rest =>
    if g.start_time ≤ windowEnd then
      { g with is_transitioning := true } :: markWithinWindow windowEnd rest
    else
      g :: rest

/-- One iteration of the detect_transitions sliding window, anchored at
index i. -/
def applyWindow (config : SegmentationConfig) (gs : List ReadingGroup)
    (i : Nat) : List ReadingGroup :=
  match gs.drop i with
  | [] => gs
  | g :: rest =>
    let windowEnd := g.start_time + (config.transition_window_secs : Int) * 1000
    let windowGroups :=
      (g :: rest).takeWhile (fun h => h.start_time ≤ windowEnd)
    if windowGroups.length < 2 then gs
    else
      let isTrans :=
        if config.transition_switch_threshold ≤ countSwitches windowGroups then
          true
        else
          match calculate_median_dwell windowGroups with
          | some m => decide (m < 10)
          | none => false
      if isTrans then gs.take i ++ markWithinWindow windowEnd (gs.drop i)
      else gs

/-- Mark groups as transitioning using a sliding window
(segmentation/algorithm.rs detect_transitions). -/
def detect_transitions (config : SegmentationConfig)
    (groups : List ReadingGroup) : List ReadingGroup :=
  if groups.length < 2 then groups
  else (List.range groups.length).foldl (applyWindow config) groups

/-- Merge consecutive transitioning groups into one
(segmentation/algorithm.rs merge_transition_groups; the source panics on an
empty input, so the head is taken as a separate argument). -/
def merge_transition_groups (g : ReadingGroup) (gs : List ReadingGroup) :
    ReadingGroup :=
  gs.foldl
    (fun m h => { m with readings := m.readings ++ h.readings,
                         end_time := h.end_time })
    g

/-- Count of distinct phash values among readings
(segmentation/scoring.rs compute_unique_phash_count). -/
def compute_unique_phash_count (readings : List ContextReading) : Int :=
  ((readings.filterMap (fun r => r.phash)).dedup).length

/-- The key set of the title_counts HashMap built by
most_common_window_title: the distinct window titles of the readings, in
one canonical enumeration; the iteration-order oracle rearranges it. -/
def titleKeys (readings : List ContextReading) : List String :=
  (readings.map (fun r => r.window_metadata.title)).dedup

/-- The value the title_counts HashMap stores for a title: its number of
occurrences among the readings. -/
def titleCount (readings : List ContextReading) (t : String) : Nat :=
  (readings.filter (fun r => r.window_metadata.title = t)).length

/-- Rust Iterator.max_by_key over the map entries, visited in the given
order: of several entries with the maximal count, the last one visited
wins. -/
def maxByCount (count : String → Nat) (order : List String) :
    Option String :=
  order.foldl
    (fun best t =>
      match best with
      | none => some t
      | some b => if count b ≤ count t then some t else some b)
    none

/-- Accumulator form of the max_by_key fold, used to reason about
maxByCount. -/
def maxByCountFrom (count : String → Nat) (b : String)
    (order : List String) : Option String :=
  order.foldl
    (fun best t =>
      match best with
      | none => some t
      | some b2 => if count b2 ≤ count t then some t else some b2)
    (some b)

/-- Most frequent window title of a reading list
(segmentation/algorithm.rs most_common_window_title). The std HashMap
iterates its entries in a per-instance randomized order, so the order in
which max_by_key visits the key set is supplied as an argument; in a real
run it is an arbitrary permutation of the key set. -/
def most_common_window_title (order : List String → List String)
    (readings : List ContextReading) : Option String :=
  match readings with
  | [] => none
  | _ => maxByCount (titleCount readings) (order (titleKeys readings))

/-- Segment built from a flushed run of transitioning groups
(create_initial_segments_with_readings, transition flush block). -/
def transitionSegment (gen : Nat → String)
    (ord : Nat → List String → List String) (k : Nat)
    (merged : ReadingGroup) : Segment :=
  { id := gen k
    session_id := (merged.readings.headI).session_id
    start_time := merged.start_time
    end_time := merged.end_time
    duration_secs := merged.duration_secs
    bundle_id := merged.bundle_id
    app_name := some merged.app_name
    window_title := most_common_window_title (ord k) merged.readings
    segment_type := .transitioning
    confidence := 0
    duration_score := none
    stability_score := none
    visual_clarity_score := none
    ocr_quality_score := none
    reading_count := (merged.reading_count : Int)
    unique_phash_count := none
    segment_summary := none }

/-- Segment built from one stable group
(create_initial_segments_with_readings, stable branch). -/
def stableSegment (gen : Nat → String)
    (ord : Nat → List String → List String) (k : Nat) (g : ReadingGroup) :
    Segment :=
  { id := gen k
    session_id := (g.readings.headI).session_id
    start_time := g.start_time
    end_time := g.end_time
    duration_secs := g.duration_secs
    bundle_id := g.bundle_id
    app_name := some g.app_name
    window_title := most_common_window_title (ord k) g.readings
    segment_type := .stable
    confidence := 0
    duration_score := none
    stability_score := none
    visual_clarity_score := none
    ocr_quality_score := none
    reading_count := (g.reading_count : Int)
    unique_phash_count := none
    segment_summary := none }

/-- Main loop of create_initial_segments_with_readings: transitioning
groups accumulate and are flushed as one merged segment when a stable group
or the end of the list is reached. The uuid counter advances once per
segment pushed, in push order. -/
def create_initial_aux (gen : Nat → String)
    (ord : Nat → List String → List String) :
    List ReadingGroup → List ReadingGroup → Nat →
      List SegmentWithReadings × Nat
  | [], acc, k =>
    match acc with
    | [] => ([], k)
    | a :: rest =>
      let m := merge_transition_groups a rest
      ([⟨transitionSegment gen ord k m, m.readings⟩], k + 1)
  | g :: gs, acc, k =>
    if g.is_transitioning then create_initial_aux gen ord gs (acc ++ [g]) k
    else
      match acc with
      | [] =>
        let p := create_initial_aux gen ord gs [] (k + 1)
        (⟨stableSegment gen ord k g, g.readings⟩ :: p.1, p.2)
      | a :: rest =>
        let m := merge_transition_groups a rest
        let p := create_initial_aux gen ord gs [] (k + 2)
        (⟨transitionSegment gen ord k m, m.readings⟩ ::
           ⟨stableSegment gen ord (k + 1) g, g.readings⟩ :: p.1, p.2)

/-- Convert groups into initial segments with their readings tracked
(segmentation/algorithm.rs create_initial_segments_with_readings). -/
def create_initial_segments_with_readings (gen : Nat → String)
    (ord : Nat → List String → List String) (k : Nat)
    (groups : List ReadingGroup) : List SegmentWithReadings × Nat :=
  match groups with
  | [] => ([], k)
  | _ => create_initial_aux gen ord groups [] k

/-- Sandwich condition on an adjacent triple (merge.rs, lines 33-36): A and
C share a bundle_id, B is a stable segment and B is short enough. -/
def sandwichable (config : SegmentationConfig) (a b c : Segment) : Prop :=
  a.bundle_id = c.bundle_id ∧ b.segment_type = .stable ∧
    b.duration_secs ≤ (config.sandwich_max_duration_secs : Int)

instance (config : SegmentationConfig) (a b c : Segment) :
    Decidable (sandwichable config a b c) := by
  unfold sandwichable; infer_instance

/-- Merged segment of a qualifying triple (merge.rs, lines 38-43): A
extended to the end of C, duration recomputed, reading counts summed. -/
def mergedSegment (a c : Segment) : Segment :=
  { a with end_time := c.end_time,
           duration_secs := chronoNumSeconds (c.end_time - a.start_time),
           reading_count := a.reading_count + c.reading_count }

/-- Interruption recorded for the middle segment of a qualifying triple
(merge.rs, lines 46-53). -/
def interruptionOf (gen : Nat → String) (k : Nat) (a b c : Segment) :
    Interruption :=
  { id := gen k
    segment_id := (mergedSegment a c).id
    bundle_id := b.bundle_id
    app_name := b.app_name
    timestamp := b.start_time
    duration_secs := b.duration_secs }

/-- One left-to-right scan of sandwich_merge (merge.rs inner while loop).
Returns the rewritten list, the interruptions recorded during the scan, the
merged flag and the next uuid counter. -/
def sandwich_pass (gen : Nat → String) (config : SegmentationConfig) :
    List Segment → Nat → List Segment × List Interruption × Bool × Nat
  | a :: b :: c :: rest, k =>
    if sandwichable config a b c then
      let p := sandwich_pass gen config rest (k + 1)
      (mergedSegment a c :: p.1, interruptionOf gen k a b c :: p.2.1, true,
       p.2.2.2)
    else
      let p := sandwich_pass gen config (b :: c :: rest) k
      (a :: p.1, p.2.1, p.2.2.1, p.2.2.2)
  | segs, k => (segs, [], false, k)

/-- Outer loop of sandwich_merge: rescan until a pass merges nothing. The
fuel bounds the number of passes; each merging pass strictly shortens the
list, so length + 1 passes always suffice. -/
def sandwich_loop (gen : Nat → String) (config : SegmentationConfig) :
    Nat → List Segment → List Interruption → Nat →
      List Segment × List Interruption × Nat
  | 0, segs, acc, k => (segs, acc, k)
  | fuel + 1, segs, acc, k =>
    let p := sandwich_pass gen config segs k
    if p.2.2.1 then sandwich_loop gen config fuel p.1 (acc ++ p.2.1) p.2.2.2
    else (p.1, acc ++ p.2.1, p.2.2.2)

/-- Repeated sandwich merging (segmentation/merge.rs sandwich_merge). -/
def sandwich_merge (gen : Nat → String) (k : Nat)
    (config : SegmentationConfig) (segments : List Segment) :
    List Segment × List Interruption × Nat :=
  sandwich_loop gen config (segments.length + 1) segments [] k

/-- Classify transitioning segments of at least the distracted threshold as
Distracted (segmentation/algorithm.rs classify_segments). -/
def classify_segments (config : SegmentationConfig)
    (segments : List Segment) : List Segment :=
  segments.map (fun s =>
    if s.segment_type = .transitioning ∧
        (config.distracted_threshold_secs : Int) ≤ s.duration_secs then
      { s with segment_type := .distracted }
    else s)

/-- Duration sub-score (segmentation/scoring.rs score_duration): the
logistic 1 / (1 + exp (-0.02 * (duration - 120))). -/
noncomputable def score_duration (duration_secs : Int) : ℝ :=
  1 / (1 + Real.exp (-(0.02) * ((duration_secs : ℝ) - 120)))

/-- Stability sub-score (segmentation/scoring.rs score_stability): fraction
of readings whose bundle_id matches the segment. -/
noncomputable def score_stability (segment : Segment)
    (readings : List ContextReading) : ℝ :=
  if readings.isEmpty then 0.5
  else
    ((readings.filter
        (fun r => r.window_metadata.bundle_id = segment.bundle_id)).length
      : ℝ) / (readings.length : ℝ)

/-- Visual-clarity sub-score (segmentation/scoring.rs
score_visual_clarity). -/
noncomputable def score_visual_clarity (segment : Segment) : ℝ :=
  if segment.reading_count = 0 then 0.5
  else
    let uniqueCount := segment.unique_phash_count.getD 0
    let changeFrac := (uniqueCount : ℝ) / (segment.reading_count : ℝ)
    1 - min changeFrac 1

/-- Recognition-quality sub-score (segmentation/scoring.rs
score_ocr_quality): mean ocr confidence, default 0.5. -/
noncomputable def score_ocr_quality (readings : List ContextReading) : ℝ :=
  if readings.isEmpty then 0.5
  else
    let cs := readings.filterMap (fun r => r.ocr_confidence)
    if cs.isEmpty then 0.5 else cs.sum / (cs.length : ℝ)

/-- Weighted four-factor confidence (segmentation/scoring.rs
compute_confidence): (overall, duration, stability, visual, ocr). -/
noncomputable def compute_confidence (segment : Segment)
    (readings : List ContextReading) (config : SegmentationConfig) :
    ℝ × ℝ × ℝ × ℝ × ℝ :=
  let ds := score_duration segment.duration_secs
  let ss := score_stability segment readings
  let vs := score_visual_clarity segment
  let os := score_ocr_quality readings
  (config.weight_duration * ds + config.weight_stability * ss +
     config.weight_visual * vs + config.weight_ocr * os,
   ds, ss, vs, os)

/-- Readings whose timestamp falls inside the segment interval
(segment_session step 8, filter). -/
def readingsInSegment (allReadings : List ContextReading) (s : Segment) :
    List ContextReading :=
  allReadings.filter
    (fun r => s.start_time ≤ r.timestamp ∧ r.timestamp ≤ s.end_time)

/-- Aggregate recomputation of segment_session step 8: unique phash count
and reading count are rebuilt from the readings inside the interval. -/
def aggregate_segment (allReadings : List ContextReading) (s : Segment) :
    Segment :=
  let rs := readingsInSegment allReadings s
  { s with unique_phash_count := some (compute_unique_phash_count rs),
           reading_count := (rs.length : Int) }

/-- Body of the segment_session step 8 loop: aggregates, then the five
score fields from compute_confidence on the updated segment. -/
noncomputable def score_segment (config : SegmentationConfig)
    (allReadings : List ContextReading) (s : Segment) : Segment :=
  let rs := readingsInSegment allReadings s
  let s1 := aggregate_segment allReadings s
  let cc := compute_confidence s1 rs config
  { s1 with confidence := cc.1
            duration_score := some cc.2.1
            stability_score := some cc.2.2.1
            visual_clarity_score := some cc.2.2.2.1
            ocr_quality_score := some cc.2.2.2.2 }

/-- Pre-score segment of create_single_segment_for_session: one segment
spanning the whole session, confidence initialised to the 0.95 prior. -/
def singleSegmentBase (gen : Nat → String)
    (ord : Nat → List String → List String)
    (readings : List ContextReading) (session_id : String) : Segment :=
  let first := readings.headI
  let last := readings.getLastD default
  { id := gen 0
    session_id := session_id
    start_time := first.timestamp
    end_time := last.timestamp
    duration_secs := chronoNumSeconds (last.timestamp - first.timestamp)
    bundle_id := first.window_metadata.bundle_id
    app_name := some first.window_metadata.owner_name
    window_title := most_common_window_title (ord 0) readings
    segment_type := .stable
    confidence := 0.95
    duration_score := none
    stability_score := none
    visual_clarity_score := none
    ocr_quality_score := none
    reading_count := (readings.length : Int)
    unique_phash_count := some (compute_unique_phash_count readings)
    segment_summary := none }

/-- Single segment for very short or single-app sessions
(segmentation/algorithm.rs create_single_segment_for_session). The 0.95
prior is immediately overwritten by the computed scores. -/
noncomputable def create_single_segment_for_session (gen : Nat → String)
    (ord : Nat → List String → List String)
    (readings : List ContextReading) (session_id : String)
    (config : SegmentationConfig) : List Segment × List Interruption :=
  if readings.isEmpty then ([], [])
  else
    let segment := singleSegmentBase gen ord readings session_id
    let cc := compute_confidence segment readings config
    ([{ segment with confidence := cc.1
                     duration_score := some cc.2.1
                     stability_score := some cc.2.2.1
                     visual_clarity_score := some cc.2.2.2.1
                     ocr_quality_score := some cc.2.2.2.2 }],
     [])

/-- Main segmentation transform (segmentation/algorithm.rs
segment_session). gen models the process-wide stream of Uuid.new_v4
draws; ord models the per-call HashMap iteration orders. -/
noncomputable def segment_session (gen : Nat → String)
    (ord : Nat → List String → List String)
    (readings : List ContextReading) (config : SegmentationConfig) :
    List Segment × List Interruption :=
  if readings.isEmpty then ([], [])
  else
    let session_id := (readings.headI).session_id
    let session_start := (readings.headI).timestamp
    let session_end := (readings.getLastD default).timestamp
    let session_duration := u64ofI64 (chronoNumSeconds (session_end - session_start))
    if session_duration < config.min_segment_duration_secs then
      create_single_segment_for_session gen ord readings session_id config
    else if readings.all (fun r =>
        r.window_metadata.bundle_id =
          (readings.headI).window_metadata.bundle_id) then
      create_single_segment_for_session gen ord readings session_id config
    else
      let groups := detect_transitions config (group_readings readings)
      let p := create_initial_segments_with_readings gen ord 0 groups
      let segments := p.1.map SegmentWithReadings.segment
      let q := sandwich_merge gen p.2 config segments
      let allReadings := (p.1.map SegmentWithReadings.readings).flatten
      let finalSegments := classify_segments config q.1
      (finalSegments.map (score_segment config allReadings), q.2.1)

/-- Reading with the given bundle, title and timestamp and no optional
payload, used as concrete test input. -/
def mkReading (bundle title owner : String) (ts : Int) : ContextReading :=
  { id := none
    session_id := "sess"
    timestamp := ts
    window_metadata :=
      { window_id := 1, bundle_id := bundle, title := title,
        owner_name := owner }
    phash := none
    ocr_text := none
    ocr_confidence := none
    ocr_word_count := none }

/-- Deterministic stand-in for the Uuid.new_v4 stream. -/
def genU (n : Nat) : String := "u" ++ toString n

/-- Concrete stand-in for the HashMap iteration orders: every call visits
the key set in its canonical enumeration. -/
def ordId : Nat → List String → List String := fun _ l => l

/-- Another realizable stand-in for the HashMap iteration orders: every
call visits the key set in reversed enumeration; used to exhibit the tie
sensitivity of the chosen window title. -/
def ordRev : Nat → List String → List String := fun _ l => l.reverse

/-- Ten readings for one app, five seconds apart: the single-app scenario
of the spec. -/
def readingsSingleApp : List ContextReading :=
  (List.range 10).map (fun i => mkReading "app.a" "Doc" "A" (5000 * i))

/-- Two app-A readings then two app-B readings with a 30 second gap in
between: the session has an uncovered interior. -/
def readingsWithGap : List ContextReading :=
  [mkReading "app.a" "Doc" "A" 0,
   mkReading "app.a" "Doc" "A" 10000,
   mkReading "app.b" "Web" "B" 40000,
   mkReading "app.b" "Web" "B" 80000]

/-- Two readings of one app carrying two distinct window titles: the title
counts tie, so the HashMap iteration order decides which title max_by_key
returns. -/
def readingsTiedTitles : List ContextReading :=
  [mkReading "app.a" "T1" "A" 0,
   mkReading "app.a" "T2" "A" 5000]

/-- Fourteen readings forming seven groups
X(0-100s), Y(170-175s), X(240-340s), Y(410-420s), X(490-590s),
Y(660-665s), X(730-830s); sandwich merging the first and the third X-host
and then merging those two hosts orphans the interruption owned by the
second host. -/
def readingsDangling : List ContextReading :=
  [mkReading "app.x" "X" "X" 0,
   mkReading "app.x" "X" "X" 100000,
   mkReading "app.y" "Y" "Y" 170000,
   mkReading "app.y" "Y" "Y" 175000,
   mkReading "app.x" "X" "X" 240000,
   mkReading "app.x" "X" "X" 340000,
   mkReading "app.y" "Y" "Y" 410000,
   mkReading "app.y" "Y" "Y" 420000,
   mkReading "app.x" "X" "X" 490000,
   mkReading "app.x" "X" "X" 590000,
   mkReading "app.y" "Y" "Y" 660000,
   mkReading "app.y" "Y" "Y" 665000,
   mkReading "app.x" "X" "X" 730000,
   mkReading "app.x" "X" "X" 830000]

/-! Predicates used to state the segmentation claims. -/

/-- A segment whose stored duration is the whole-second span of its
interval, with no capture-interval addend. -/
def DurOk (s : Segment) : Prop :=
  s.duration_secs = chronoNumSeconds (s.end_time - s.start_time)

/-- Interval projection of a segment. -/
def sKey (s : Segment) : Int × Int := (s.start_time, s.end_time)

/-- Interval projection of a reading group. -/
def gKey (g : ReadingGroup) : Int × Int := (g.start_time, g.end_time)

/-- Chronological, pairwise disjoint segment intervals: each segment ends
strictly before the next begins. -/
def SegsChain (l : List Segment) : Prop :=
  l.Chain' (fun s t => s.end_time < t.start_time)

/-- Well-formed segment intervals contained in [lo, hi]. -/
def SegsWithin (lo hi : Int) (l : List Segment) : Prop :=
  ∀ s ∈ l, lo ≤ s.start_time ∧ s.start_time ≤ s.end_time ∧
    s.end_time ≤ hi

/-- Chronological, pairwise disjoint reading groups. -/
def GroupsChain (gs : List ReadingGroup) : Prop :=
  gs.Chain' (fun g h => g.end_time < h.start_time)

/-- Well-formed group intervals contained in [lo, hi]. -/
def GroupsWithin (lo hi : Int) (gs : List ReadingGroup) : Prop :=
  ∀ g ∈ gs, lo ≤ g.start_time ∧ g.start_time ≤ g.end_time ∧
    g.end_time ≤ hi

/-- The union of the segment intervals covers every instant of [lo, hi]. -/
def CoversSpan (segs : List Segment) (lo hi : Int) : Prop :=
  ∀ t, lo ≤ t → t ≤ hi → ∃ s ∈ segs, s.start_time ≤ t ∧ t ≤ s.end_time

/-- No adjacent triple of the list qualifies for a sandwich merge. -/
inductive NoTriple (config : SegmentationConfig) : List Segment → Prop where
  | nil : NoTriple config []
  | single (a : Segment) : NoTriple config [a]
  | pair (a b : Segment) : NoTriple config [a, b]
  | cons (a b c : Segment) (r : List Segment)
      (h : ¬ sandwichable config a b c) (hr : NoTriple config (b :: c :: r)) :
      NoTriple config (a :: b :: c :: r)

/-- Segment with its run-local nondeterministic fields blanked — the
freshly drawn id and the window_title whose tie-break follows the HashMap
iteration order — for comparing runs that differ only in the Uuid.new_v4
stream and the HashMap orders. -/
def eraseSegRun (s : Segment) : Segment :=
  { s with id := "", window_title := none }

/-- Interruption with its freshly drawn id and its segment reference
blanked. -/
def eraseIntrIds (i : Interruption) : Interruption :=
  { i with id := "", segment_id := "" }

/-- Reading group with its transition flag cleared, for stating that
detect_transitions changes nothing else. -/
def eraseFlag (g : ReadingGroup) : ReadingGroup :=
  { g with is_transitioning := false }

/-- Concrete segment used in merge scenarios. -/
def mkSegment (id bundle : String) (startMs endMs : Int) (ty : SegmentType)
    (rc : Int) : Segment :=
  { id := id
    session_id := "sess"
    start_time := startMs
    end_time := endMs
    duration_secs := chronoNumSeconds (endMs - startMs)
    bundle_id := bundle
    app_name := some bundle
    window_title := some "t"
    segment_type := ty
    confidence := 0
    duration_score := none
    stability_score := none
    visual_clarity_score := none
    ocr_quality_score := none
    reading_count := rc
    unique_phash_count := none
    segment_summary := none }

/-- Triple whose middle segment is short and sandwiched between two
segments of one app but carries the Transitioning type. -/
def trioA : Segment := mkSegment "a" "app.x" 0 30000 .stable 2
def trioB : Segment := mkSegment "b" "app.y" 35000 40000 .transitioning 2
def trioC : Segment := mkSegment "c" "app.x" 45000 75000 .stable 2

/-- Five-segment chain A, B, A, B, A with short stable B segments. -/
def chainSegs : List Segment :=
  [mkSegment "a1" "app.x" 0 30000 .stable 7,
   mkSegment "b1" "app.y" 30000 35000 .stable 1,
   mkSegment "a2" "app.x" 35000 65000 .stable 7,
   mkSegment "b2" "app.y" 65000 70000 .stable 1,
   mkSegment "a3" "app.x" 70000 100000 .stable 7]

/-! Session lifecycle model (timer/state.rs, timer/controller.rs). Database
writes, sensing control, the ticker task and UI events are external
effects; the model captures the in-memory timer state transition and the
synchronous result returned to the caller. Monotonic instants are
modelled as natural-number milliseconds. -/

/-- Timer mode (used throughout timer/controller.rs; its declaration is
absent from the source snapshot). Modelled from the spec: a countdown-style
deadline mode, a non-persisting break mode and an open-ended stopwatch. -/
inductive TimerMode where
  | countdown
  | breakMode
  | stopwatch
deriving DecidableEq, Repr

/-- Timer status (timer/state.rs TimerStatus). -/
inductive TimerStatus where
  | idle
  | running
  | paused
  | stopped
deriving DecidableEq, Repr

/-- In-memory timer state (timer/state.rs TimerState, plus the mode field
the controller reads, whose declaration is absent from the snapshot). -/
structure TimerState where
  status : TimerStatus
  session_id : Option String
  target_ms : Nat
  active_ms : Nat
  paused_ms : Nat
  started_at : Option Int
  last_pause_started_at : Option Int
  active_pause_id : Option String
  active_ms_baseline : Nat
  running_anchor : Option Nat
  mode : TimerMode
deriving DecidableEq, Repr

/-- TimerState.new / Default: the Idle state. -/
def TimerState.new : TimerState :=
  { status := .idle
    session_id := none
    target_ms := 0
    active_ms := 0
    paused_ms := 0
    started_at := none
    last_pause_started_at := none
    active_pause_id := none
    active_ms_baseline := 0
    running_anchor := none
    mode := .countdown }

/-- TimerState.current_active_ms at monotonic instant now. -/
def TimerState.current_active_ms (s : TimerState) (now : Nat) : Nat :=
  match s.status, s.running_anchor with
  | .running, some anchor => s.active_ms_baseline + (now - anchor)
  | _, _ => s.active_ms

/-- TimerState.sync_active_from_anchor at monotonic instant now. -/
def TimerState.sync_active_from_anchor (s : TimerState) (now : Nat) :
    TimerState :=
  match s.status, s.running_anchor with
  | .running, some anchor =>
    { s with active_ms := s.active_ms_baseline + (now - anchor) }
  | _, _ => s

/-- TimerState.begin_session. -/
def TimerState.begin_session (session_id : String) (target_ms : Nat)
    (mode : TimerMode) (start_at : Int) (now : Nat) : TimerState :=
  { status := .running
    session_id := some session_id
    target_ms := target_ms
    active_ms := 0
    paused_ms := 0
    started_at := some start_at
    last_pause_started_at := none
    active_pause_id := none
    active_ms_baseline := 0
    running_anchor := some now
    mode := mode }

/-- i64 maximum value, the stopwatch target (controller.rs start_timer). -/
def I64_MAX : Nat := 2 ^ 63 - 1

/-- Session row (db/models/session.rs Session). -/
inductive SessionStatus where
  | running
  | completed
  | cancelled
  | interrupted
deriving DecidableEq, Repr

structure Session where
  id : String
  started_at : Int
  stopped_at : Option Int
  status : SessionStatus
  target_ms : Nat
  active_ms : Nat
  label_id : Option Int
  note : Option String
  created_at : Int
  updated_at : Int
deriving DecidableEq, Repr

/-- Target validation of start_timer (controller.rs, lines 101-119). -/
def actualTargetMs (mode : TimerMode) (target_ms : Nat) :
    Except String Nat :=
  match mode with
  | .countdown =>
    if target_ms = 0 then
      .error "target_ms must be greater than zero for countdown mode"
    else .ok target_ms
  | .breakMode =>
    if target_ms = 0 then
      .error "target_ms must be greater than zero for break mode"
    else .ok target_ms
  | .stopwatch => .ok I64_MAX

/-- start_timer (controller.rs, lines 96-211) as a state transition: the
returned state is the controller state after the call; an error leaves it
untouched. now1 is the instant passed to begin_session and now2 the later
anchor reset instant. -/
def start_timer (s : TimerState) (gen : Nat → String) (target_ms : Nat)
    (mode? : Option TimerMode) (startedAt : Int) (now1 now2 : Nat) :
    Except String Unit × TimerState :=
  let mode := mode?.getD .countdown
  match actualTargetMs mode target_ms with
  | .error e => (.error e, s)
  | .ok tgt =>
    if s.status ≠ .idle then (.error "timer already active", s)
    else
      let s1 := TimerState.begin_session (gen 0) tgt mode startedAt now1
      (.ok (), { s1 with running_anchor := some now2,
                         active_ms_baseline := 0, active_ms := 0 })

/-- end_timer (controller.rs, lines 213-385) restricted to the timer state
and the session snapshot built for the terminal write; segmentation and
persistence are external. -/
def end_timer (s : TimerState) (stoppedAt : Int) (now : Nat) :
    Except String Session × TimerState :=
  if s.status = .idle then (.error "no active session to end", s)
  else
    let s1 := s.sync_active_from_anchor now
    match s1.session_id with
    | none => (.error "missing session id", s1)
    | some sid =>
      let active := min (s1.current_active_ms now) s1.target_ms
      (.ok { id := sid
             started_at := s1.started_at.getD stoppedAt
             stopped_at := some stoppedAt
             status := .completed
             target_ms := s1.target_ms
             active_ms := active
             label_id := none
             note := none
             created_at := s1.started_at.getD stoppedAt
             updated_at := stoppedAt },
       TimerState.new)

/-- cancel_timer (controller.rs, lines 387-434): on an Idle state it
returns Ok and changes nothing (only the macOS island is reset); otherwise
the state is cleared and the Cancelled status is written externally. -/
def cancel_timer (s : TimerState) (now : Nat) :
    Except String Unit × TimerState :=
  if s.status = .idle then (.ok (), s)
  else
    let s1 := s.sync_active_from_anchor now
    match s1.session_id with
    | none => (.error "no active session to cancel", s1)
    | some _ => (.ok (), TimerState.new)

/-- A concrete Running timer state. -/
def runningState : TimerState :=
  { status := .running
    session_id := some "sess"
    target_ms := 60000
    active_ms := 1000
    paused_ms := 0
    started_at := some 0
    last_pause_started_at := none
    active_pause_id := none
    active_ms_baseline := 0
    running_anchor := some 0
    mode := .countdown }

/-! Startup crash recovery (lib.rs, lines 248-264;
db/repositories/sessions.rs get_incomplete_session and
mark_session_interrupted). The sessions table is modelled as a list of
rows. -/

/-- Accumulator of the latest-started row, modelling ORDER BY started_at
DESC LIMIT 1; ties, whose order SQLite leaves unspecified, resolve to the
earlier row. -/
def pickLater (best : Option Session) (s : Session) : Option Session :=
  match best with
  | none => some s
  | some b => if b.started_at < s.started_at then some s else some b

/-- get_incomplete_session: the Running session with the greatest
started_at. -/
def get_incomplete_session (db : List Session) : Option Session :=
  (db.filter (fun s => s.status = .running)).foldl pickLater none

/-- mark_session_interrupted: set status, stopped_at and updated_at on the
row with the given id. -/
def mark_session_interrupted (db : List Session) (sid : String)
    (stoppedAt : Int) : List Session :=
  db.map (fun s =>
    if s.id = sid then
      { s with status := .interrupted, stopped_at := some stoppedAt,
               updated_at := stoppedAt }
    else s)

/-- Startup recovery block of lib.rs: fetch one incomplete session and mark
it Interrupted. -/
def recover_incomplete_sessions (db : List Session) (now : Int) :
    List Session :=
  match get_incomplete_session db with
  | none => db
  | some s => mark_session_interrupted db s.id now

/-- A session row with the given id, start time and status. -/
def mkSession (id : String) (startedAt : Int) (st : SessionStatus) :
    Session :=
  { id := id
    started_at := startedAt
    stopped_at := none
    status := st
    target_ms := 60000
    active_ms := 0
    label_id := none
    note := none
    created_at := startedAt
    updated_at := startedAt }

/-- Two sessions left Running, as after repeated unclean shutdowns. -/
def dbTwoRunning : List Session :=
  [mkSession "s1" 0 .running, mkSession "s2" 1000 .running]

/-! Recognition gating (sensing/loop_worker.rs). Instant.elapsed is
modelled by passing the elapsed whole seconds; the image_hasher base64
decoding and bit distance are external and modelled as an oracle. -/

/-- OCR cooldown in seconds (loop_worker.rs OCR_COOLDOWN_SECS). -/
def OCR_COOLDOWN_SECS : Nat := 20

/-- Fingerprint change threshold (loop_worker.rs PHASH_CHANGE_THRESHOLD). -/
def PHASH_CHANGE_THRESHOLD : Nat := 8

/-- cooldown_elapsed (loop_worker.rs): true when no recognition ran yet or
at least the cooldown passed since the last one. -/
def cooldown_elapsed (lastOcrElapsedSecs : Option Nat) : Bool :=
  match lastOcrElapsedSecs with
  | some e => OCR_COOLDOWN_SECS ≤ e
  | none => true

/-- should_perform_ocr_with_reason (loop_worker.rs, lines 274-291). dist is
the external compute_hamming_distance; lastOcrElapsedSecs is the elapsed
time of the last recognition instant, if any. -/
def should_perform_ocr_with_reason (dist : String → String → Nat)
    (currentPhash : String) (lastOcrPhash : Option String)
    (lastOcrElapsedSecs : Option Nat) : Bool × Option String :=
  match lastOcrPhash with
  | none => (true, none)
  | some prev =>
    if ¬ cooldown_elapsed lastOcrElapsedSecs then (false, some "cooldown")
    else if PHASH_CHANGE_THRESHOLD ≤ dist currentPhash prev then
      (true, none)
    else (false, some "no_change")

/-! General helper lemmas. -/

theorem headI_mem {α : Type} [Inhabited α] (l : List α) (h : l ≠ []) :
    l.headI ∈ l := by
  cases l with
  | nil => exact absurd rfl h
  | cons a t => exact List.mem_cons_self a t

/-! C10: recognition gating. -/

/-- C10: on each capture tick, text recognition runs iff no fingerprint was
ever recognised, or the cooldown elapsed and the fingerprint distance from
the last-recognised fingerprint reaches the change threshold (the source
comparison is inclusive: a distance equal to the threshold counts as
changed); in particular a tick one second after a recognition with the same
fingerprint is gated by the cooldown and does not run recognition. -/
theorem c10_recognition_gate :
    (∀ (dist : String → String → Nat) (cur : String)
        (lastPhash : Option String) (elapsed : Option Nat),
      (should_perform_ocr_with_reason dist cur lastPhash elapsed).1 = true ↔
        (lastPhash = none ∨
          ∃ prev, lastPhash = some prev ∧ cooldown_elapsed elapsed = true ∧
            PHASH_CHANGE_THRESHOLD ≤ dist cur prev)) ∧
    (∀ (dist : String → String → Nat) (p : String),
      should_perform_ocr_with_reason dist p (some p) (some 1) =
        (false, some "cooldown")) := by
  constructor
  · intro dist cur lastPhash elapsed
    cases lastPhash with
    | none => simp [should_perform_ocr_with_reason]
    | some prev =>
      simp only [should_perform_ocr_with_reason]
      by_cases hc : cooldown_elapsed elapsed = true
      · by_cases hd : PHASH_CHANGE_THRESHOLD ≤ dist cur prev
        · simp [hc, hd]
        · simp [hc, hd]
      · simp [hc]
  · intro dist p
    rfl

/-! C8: lifecycle guards. -/

/-- C8 counterexample: cancelling while Idle is not rejected; the call
returns Ok and leaves the state unchanged, so the "cancel while Idle is
rejected" part of the claim fails on the code. -/
theorem c8_cancel_idle_counterexample :
    cancel_timer TimerState.new 0 = (.ok (), TimerState.new) ∧
    ∀ e, (cancel_timer TimerState.new 0).1 ≠ .error e := by
  constructor
  · rfl
  · intro e h
    simp [cancel_timer, TimerState.new] at h

/-- C8 amended: start while Running and end while Idle are rejected
synchronously with an error and unchanged timer state; cancel while Idle is
a silent no-op that returns Ok with unchanged timer state. -/
theorem c8_amended (s : TimerState) (gen : Nat → String) (target : Nat)
    (mode? : Option TimerMode) (startedAt : Int) (n1 n2 : Nat)
    (stoppedAt : Int) (now : Nat) :
    (s.status = .running →
      (start_timer s gen target mode? startedAt n1 n2).2 = s ∧
      ∃ e, (start_timer s gen target mode? startedAt n1 n2).1 = .error e) ∧
    (s.status = .idle →
      end_timer s stoppedAt now = (.error "no active session to end", s)) ∧
    (s.status = .idle → cancel_timer s now = (.ok (), s)) := by
  refine ⟨?_, ?_, ?_⟩
  · intro hrun
    cases h : actualTargetMs (mode?.getD .countdown) target with
    | error e => simp [start_timer, h]
    | ok tgt =>
      have hne : s.status ≠ .idle := by rw [hrun]; intro hcontra; cases hcontra
      simp [start_timer, h, hne]
  · intro hidle
    simp [end_timer, hidle]
  · intro hidle
    simp [cancel_timer, hidle]

/-- C8 witness: the amended guarantees at a concrete Running state and at
the Idle state. -/
theorem c8_amended_witness :
    ((start_timer runningState genU 60000 none 0 0 0).2 = runningState ∧
      ∃ e, (start_timer runningState genU 60000 none 0 0 0).1 = .error e) ∧
    end_timer TimerState.new 0 0 =
      (.error "no active session to end", TimerState.new) ∧
    cancel_timer TimerState.new 0 = (.ok (), TimerState.new) := by
  have h1 := c8_amended runningState genU 60000 none 0 0 0 0 0
  have h2 := c8_amended TimerState.new genU 60000 none 0 0 0 0 0
  exact ⟨h1.1 rfl, h2.2.1 rfl, h2.2.2 rfl⟩

/-! C9: startup crash recovery. -/

theorem foldl_pickLater_mem :
    ∀ (l : List Session) (acc : Option Session) (s : Session),
      l.foldl pickLater acc = some s → s ∈ l ∨ acc = some s := by
  intro l
  induction l with
  | nil => intro acc s h; exact Or.inr h
  | cons x xs ih =>
    intro acc s h
    rcases ih (pickLater acc x) s h with hmem | hacc
    · exact Or.inl (List.mem_cons_of_mem x hmem)
    · cases acc with
      | none =>
        simp [pickLater] at hacc
        exact Or.inl (hacc ▸ List.mem_cons_self x xs)
      | some b =>
        simp only [pickLater] at hacc
        by_cases hlt : b.started_at < x.started_at
        · rw [if_pos hlt] at hacc
          injection hacc with hx
          exact Or.inl (hx ▸ List.mem_cons_self x xs)
        · rw [if_neg hlt] at hacc
          exact Or.inr hacc

theorem foldl_pickLater_max :
    ∀ (l : List Session) (acc : Option Session) (s : Session),
      l.foldl pickLater acc = some s →
      (∀ t ∈ l, t.started_at ≤ s.started_at) ∧
      (∀ b, acc = some b → b.started_at ≤ s.started_at) := by
  intro l
  induction l with
  | nil =>
    intro acc s h
    refine ⟨?_, ?_⟩
    · intro t ht
      exact absurd ht (List.not_mem_nil t)
    · intro b hb
      rw [hb] at h
      injection h with h
      rw [h]
  | cons x xs ih =>
    intro acc s h
    have hstep := ih (pickLater acc x) s h
    have hx : x.started_at ≤ s.started_at := by
      cases acc with
      | none => exact hstep.2 x rfl
      | some b =>
        by_cases hlt : b.started_at < x.started_at
        · exact hstep.2 x (by simp [pickLater, if_pos hlt])
        · have hb := hstep.2 b (by simp [pickLater, if_neg hlt])
          exact le_trans (not_lt.mp hlt) hb
    refine ⟨?_, ?_⟩
    · intro t ht
      rcases List.mem_cons.mp ht with rfl | hmem
      · exact hx
      · exact hstep.1 t hmem
    · intro b hb
      cases acc with
      | none => cases hb
      | some b0 =>
        have heq : b0 = b := Option.some_inj.mp hb
        subst heq
        by_cases hlt : b0.started_at < x.started_at
        · exact le_trans (le_of_lt hlt) hx
        · exact hstep.2 b0 (by simp [pickLater, if_neg hlt])

/-- C9 counterexample: with two persisted Running sessions, recovery
transitions only the most recently started one; the other is still Running
afterwards, refuting the claim for more than one dangling session. -/
theorem c9_two_running_counterexample :
    (¬ ∀ s ∈ recover_incomplete_sessions dbTwoRunning 5000,
        s.status ≠ .running) ∧
    ∃ s ∈ recover_incomplete_sessions dbTwoRunning 5000,
      s.id = "s1" ∧ s.status = .running := by
  constructor
  · decide
  · decide

/-- C9 amended: recovery marks the most recently started Running session
Interrupted with stopped_at set to the recovery instant; whenever the
database respects the at-most-one-Running invariant, no session remains
Running after recovery. With several Running rows, only one is recovered. -/
theorem c9_amended (db : List Session) (now : Int) :
    (∀ s, get_incomplete_session db = some s →
      s ∈ db ∧ s.status = .running ∧
      ∀ t ∈ db, t.status = .running → t.started_at ≤ s.started_at) ∧
    (∀ s, get_incomplete_session db = some s →
      ∀ t ∈ recover_incomplete_sessions db now, t.id = s.id →
        t.status = .interrupted ∧ t.stopped_at = some now) ∧
    ((db.filter (fun s => s.status = .running)).length ≤ 1 →
      ∀ t ∈ recover_incomplete_sessions db now, t.status ≠ .running) := by
  refine ⟨?_, ?_, ?_⟩
  · intro s hs
    have hmem := foldl_pickLater_mem _ none s hs
    rcases hmem with hmem | hacc
    · have hsf := List.mem_filter.mp hmem
      refine ⟨hsf.1, by simpa using hsf.2, ?_⟩
      intro t ht htr
      exact (foldl_pickLater_max _ none s hs).1 t
        (List.mem_filter.mpr ⟨ht, by simp [htr]⟩)
    · cases hacc
  · intro s hs t htmem htid
    unfold recover_incomplete_sessions at htmem
    rw [hs] at htmem
    unfold mark_session_interrupted at htmem
    rcases List.mem_map.mp htmem with ⟨u, _, hu⟩
    by_cases hid : u.id = s.id
    · rw [if_pos hid] at hu
      constructor
      · rw [← hu]
      · rw [← hu]
    · rw [if_neg hid] at hu
      subst hu
      exact absurd htid hid
  · intro hlen t htmem
    rcases hfe : db.filter (fun s => s.status = .running) with _ | ⟨s0, tl⟩
    · have hnone : get_incomplete_session db = none := by
        unfold get_incomplete_session
        rw [hfe]
        rfl
      simp only [recover_incomplete_sessions, hnone] at htmem
      intro htr
      have : t ∈ db.filter (fun s => s.status = .running) :=
        List.mem_filter.mpr ⟨htmem, by simp [htr]⟩
      rw [hfe] at this
      cases this
    · have htl : tl = [] := by
        rw [hfe] at hlen
        simpa using hlen
      subst htl
      have hsome : get_incomplete_session db = some s0 := by
        unfold get_incomplete_session
        rw [hfe]
        rfl
      simp only [recover_incomplete_sessions, hsome,
        mark_session_interrupted] at htmem
      rcases List.mem_map.mp htmem with ⟨u, humem, hu⟩
      by_cases hid : u.id = s0.id
      · rw [if_pos hid] at hu
        rw [← hu]
        intro hcontra
        cases hcontra
      · rw [if_neg hid] at hu
        subst hu
        intro htr
        have hin : u ∈ db.filter (fun s => s.status = .running) :=
          List.mem_filter.mpr ⟨humem, by simp [htr]⟩
        rw [hfe] at hin
        rcases List.mem_singleton.mp hin with rfl
        exact hid rfl

/-- C9 witness: the amended statement evaluated on a database holding one
Running session. -/
theorem c9_amended_witness :
    (mkSession "s1" 0 .running) ∈ [mkSession "s1" 0 .running] ∧
    ∀ t ∈ recover_incomplete_sessions [mkSession "s1" 0 .running] 5000,
      t.status ≠ .running := by
  have h := c9_amended [mkSession "s1" 0 .running] 5000
  refine ⟨List.mem_singleton.mpr rfl, h.2.2 (by decide)⟩

/-! C5: the duration sub-score. -/

/-- C5 counterexample: at the 120 s center the logistic takes the value
exactly one half, 0.2 away from the claimed approximately 0.7 (the claimed
point values are impossible for a logistic centered at 120 s). -/
theorem c5_center_counterexample :
    score_duration 120 = 1 / 2 ∧ |score_duration 120 - 0.7| = 1 / 5 := by
  have harg : -(0.02 : ℝ) * (((120 : Int) : ℝ) - 120) = 0 := by norm_num
  have h : score_duration 120 = 1 / 2 := by
    unfold score_duration
    rw [harg, Real.exp_zero]
    norm_num
  refine ⟨h, ?_⟩
  have hval : (1 : ℝ) / 2 - 0.7 = -(1 / 5) := by norm_num
  rw [h, hval, abs_neg, abs_of_nonneg (by norm_num : (0 : ℝ) ≤ 1 / 5)]

/-- C5 amended: the duration sub-score is the logistic
1 / (1 + exp (-0.02 (d - 120))), strictly increasing in the duration and
bounded in (0, 1); its value is exactly 0.5 at 120 s, below 0.3 at 30 s
(about 0.14), below 0.5 at 60 s (about 0.23) and above 0.9 at 300 s
(about 0.97) — not the 0.3 / 0.5 / 0.7 / 0.9 table of the claim. -/
theorem c5_amended :
    StrictMono score_duration ∧
    score_duration 120 = 1 / 2 ∧
    score_duration 30 < 3 / 10 ∧
    score_duration 60 < 1 / 2 ∧
    9 / 10 < score_duration 300 ∧
    ∀ d : Int, 0 < score_duration d ∧ score_duration d < 1 := by
  have hmono : StrictMono score_duration := by
    intro a b hab
    unfold score_duration
    have hcast : (a : ℝ) < (b : ℝ) := Int.cast_lt.mpr hab
    have hexp : Real.exp (-(0.02) * ((b : ℝ) - 120)) <
        Real.exp (-(0.02) * ((a : ℝ) - 120)) := by
      apply Real.exp_lt_exp.mpr
      nlinarith
    have hpos : (0 : ℝ) < 1 + Real.exp (-(0.02) * ((b : ℝ) - 120)) := by
      positivity
    exact one_div_lt_one_div_of_lt hpos (by linarith)
  have h120 : score_duration 120 = 1 / 2 := by
    have harg : -(0.02 : ℝ) * (((120 : Int) : ℝ) - 120) = 0 := by norm_num
    unfold score_duration
    rw [harg, Real.exp_zero]
    norm_num
  have h30 : score_duration 30 < 3 / 10 := by
    have harg : -(0.02 : ℝ) * (((30 : Int) : ℝ) - 120) = 1.8 := by norm_num
    have hE : (2.8 : ℝ) ≤ Real.exp 1.8 := by
      have := Real.add_one_le_exp (1.8 : ℝ)
      linarith
    unfold score_duration
    rw [harg, div_lt_iff (by positivity)]
    nlinarith
  have h60 : score_duration 60 < 1 / 2 := by
    have harg : -(0.02 : ℝ) * (((60 : Int) : ℝ) - 120) = 1.2 := by norm_num
    have hE : (2.2 : ℝ) ≤ Real.exp 1.2 := by
      have := Real.add_one_le_exp (1.2 : ℝ)
      linarith
    unfold score_duration
    rw [harg, div_lt_iff (by positivity)]
    nlinarith
  have h300 : 9 / 10 < score_duration 300 := by
    have harg : -(0.02 : ℝ) * (((300 : Int) : ℝ) - 120) = -3.6 := by norm_num
    have hE12 : (2.2 : ℝ) ≤ Real.exp 1.2 := by
      have := Real.add_one_le_exp (1.2 : ℝ)
      linarith
    have hcube : Real.exp 3.6 = Real.exp 1.2 ^ (3 : ℕ) := by
      rw [← Real.exp_nat_mul]
      norm_num
    have hE36 : (9 : ℝ) < Real.exp 3.6 := by
      rw [hcube]
      have hp : (2.2 : ℝ) ^ (3 : ℕ) ≤ Real.exp 1.2 ^ (3 : ℕ) :=
        pow_le_pow_left (by norm_num) hE12 3
      nlinarith [hp]
    have hinv : Real.exp (-3.6) < 1 / 9 := by
      rw [Real.exp_neg]
      have h9 : (0 : ℝ) < 9 := by norm_num
      have := inv_lt_inv_of_lt h9 hE36
      rw [show ((9 : ℝ))⁻¹ = 1 / 9 by norm_num] at this
      exact this
    unfold score_duration
    rw [harg, lt_div_iff (by positivity)]
    nlinarith [Real.exp_pos (-3.6 : ℝ)]
  refine ⟨hmono, h120, h30, h60, h300, ?_⟩
  intro d
  constructor
  · unfold score_duration
    positivity
  · unfold score_duration
    rw [div_lt_one (by positivity)]
    nlinarith [Real.exp_pos (-(0.02) * ((d : ℝ) - 120))]

/-! C7: interruption ownership. -/

/-- C7 failing input: on readingsDangling, the engine returns one segment
with id u0, yet one recorded interruption carries segment_id u4 — the id of
a merge host that a later pass absorbed — so it references no returned
segment. The persistence layer acknowledges this case by skipping such
rows. -/
theorem c7_dangling_interruption :
    ∃ i ∈ (segment_session genU ordId readingsDangling
        SegmentationConfig.default).2,
      ∀ s ∈ (segment_session genU ordId readingsDangling
          SegmentationConfig.default).1,
        i.segment_id ≠ s.id := by
  have hint : (segment_session genU ordId readingsDangling
      SegmentationConfig.default).2 =
      [⟨"u7", "u0", "app.y", some "Y", 170000, 5⟩,
       ⟨"u8", "u4", "app.y", some "Y", 660000, 5⟩,
       ⟨"u9", "u0", "app.y", some "Y", 410000, 10⟩] := by rfl
  have hseg : (segment_session genU ordId readingsDangling
      SegmentationConfig.default).1.map (fun s => s.id) = ["u0"] := by rfl
  refine ⟨⟨"u8", "u4", "app.y", some "Y", 660000, 5⟩, ?_, ?_⟩
  · rw [hint]
    simp
  · intro s hs
    have hmap := List.mem_map_of_mem (fun s => s.id) hs
    rw [hseg] at hmap
    have hid : s.id = "u0" := by simpa using hmap
    rw [hid]
    decide

/-! C4: the single-app session. -/

/-- C4 failing input: ten readings for one app spanning 45 seconds produce
exactly one segment spanning the session and no interruptions, but its
confidence is the weighted score, at most 0.72 — the 0.95 prior of the
source comment is overwritten — refuting the claimed fixed prior of at
least 0.9. -/
theorem c4_single_app_confidence :
    (segment_session genU ordId readingsSingleApp
        SegmentationConfig.default).1.map sKey = [(0, 45000)] ∧
    (segment_session genU ordId readingsSingleApp
        SegmentationConfig.default).2 = [] ∧
    ((segment_session genU ordId readingsSingleApp
        SegmentationConfig.default).1.headI).confidence < 9 / 10 := by
  refine ⟨by rfl, by rfl, ?_⟩
  have hconf : ((segment_session genU ordId readingsSingleApp
      SegmentationConfig.default).1.headI).confidence =
      0.30 * score_duration 45 +
        0.40 * score_stability
          (singleSegmentBase genU ordId readingsSingleApp "sess")
          readingsSingleApp +
        0.15 * score_visual_clarity
          (singleSegmentBase genU ordId readingsSingleApp "sess") +
        0.15 * score_ocr_quality readingsSingleApp := by rfl
  have hne : readingsSingleApp.isEmpty = false := by decide
  have hflen : (readingsSingleApp.filter (fun r =>
      r.window_metadata.bundle_id =
        (singleSegmentBase genU ordId readingsSingleApp "sess").bundle_id)).length
      = 10 := by decide
  have hrlen : readingsSingleApp.length = 10 := by decide
  have hst : score_stability (singleSegmentBase genU ordId readingsSingleApp "sess")
      readingsSingleApp = 1 := by
    simp only [score_stability, hne, Bool.false_eq_true, if_false, hflen,
      hrlen]
    norm_num
  have hu : (singleSegmentBase genU ordId readingsSingleApp
      "sess").unique_phash_count = some 0 := by decide
  have hrc : (singleSegmentBase genU ordId readingsSingleApp "sess").reading_count
      = 10 := by decide
  have hvc : score_visual_clarity
      (singleSegmentBase genU ordId readingsSingleApp "sess") = 1 := by
    simp only [score_visual_clarity, hu, hrc]
    norm_num
  have hfm : readingsSingleApp.filterMap (fun r => r.ocr_confidence) = [] :=
    by rfl
  have hocr : score_ocr_quality readingsSingleApp = 0.5 := by
    simp only [score_ocr_quality, hne, Bool.false_eq_true, if_false, hfm]
    simp
  have harg : -(0.02 : ℝ) * (((45 : Int) : ℝ) - 120) = 1.5 := by norm_num
  have hE : (2.5 : ℝ) ≤ Real.exp 1.5 := by
    have := Real.add_one_le_exp (1.5 : ℝ)
    linarith
  have hd : score_duration 45 ≤ 2 / 7 := by
    unfold score_duration
    rw [harg, div_le_iff (by positivity)]
    nlinarith
  rw [hconf, hst, hvc, hocr]
  nlinarith

/-! C2: duration bookkeeping, counterexample part. -/

/-- C2 counterexample: on the ten-reading single-app session, the produced
segment has duration_secs 45 while its interval spans 45 seconds, so
duration is the bare span with no added capture interval, refuting
duration = (end - start) + one capture interval. -/
theorem c2_capture_interval_counterexample :
    ¬ (∀ s ∈ (segment_session genU ordId readingsSingleApp
        SegmentationConfig.default).1,
      s.duration_secs =
        chronoNumSeconds (s.end_time - s.start_time) +
          CAPTURE_INTERVAL_SECS) := by
  intro h
  have hm : (segment_session genU ordId readingsSingleApp
      SegmentationConfig.default).1.map
        (fun s => (s.duration_secs, s.start_time, s.end_time)) =
      [(45, 0, 45000)] := by rfl
  cases hL : (segment_session genU ordId readingsSingleApp
      SegmentationConfig.default).1 with
  | nil =>
    rw [hL] at hm
    cases hm
  | cons s t =>
    have hs : s ∈ (segment_session genU ordId readingsSingleApp
        SegmentationConfig.default).1 := by
      rw [hL]
      exact List.mem_cons_self s t
    have heq := h s hs
    rw [hL] at hm
    simp only [List.map_cons, List.cons.injEq] at hm
    obtain ⟨hhead, _⟩ := hm
    have h1 : s.duration_secs = 45 := congrArg (fun p => p.1) hhead
    have h2 : s.start_time = 0 := congrArg (fun p => p.2.1) hhead
    have h3 : s.end_time = 45000 := congrArg (fun p => p.2.2) hhead
    rw [h1, h2, h3] at heq
    have : chronoNumSeconds (45000 - 0) = 45 := by decide
    rw [this] at heq
    simp [CAPTURE_INTERVAL_SECS] at heq

/-! C1: coverage, counterexample part. -/

/-- C1 counterexample: on readingsWithGap the engine returns the segments
[0 s, 10 s] and [40 s, 80 s]; the instant 25 s lies inside the session span
but inside no segment, so the union does not reconstruct the span. -/
theorem c1_coverage_counterexample :
    ¬ CoversSpan
        (segment_session genU ordId readingsWithGap
          SegmentationConfig.default).1
        (readingsWithGap.headI).timestamp
        ((readingsWithGap.getLastD default).timestamp) := by
  intro h
  have hkeys : (segment_session genU ordId readingsWithGap
      SegmentationConfig.default).1.map sKey =
      [(0, 10000), (40000, 80000)] := by rfl
  have h25 := h 25000 (by decide) (by decide)
  obtain ⟨s, hs, hst, hen⟩ := h25
  have hmem : sKey s ∈ [((0 : Int), (10000 : Int)), (40000, 80000)] := by
    rw [← hkeys]
    exact List.mem_map_of_mem sKey hs
  simp [sKey, Prod.mk.injEq] at hmem
  rcases hmem with ⟨h1, h2⟩ | ⟨h1, h2⟩ <;> omega

/-! Structural lemmas about sandwich merging. -/

theorem sandwich_pass_nil (gen : Nat → String) (config : SegmentationConfig)
    (k : Nat) : sandwich_pass gen config [] k = ([], [], false, k) := rfl

theorem sandwich_pass_one (gen : Nat → String)
    (config : SegmentationConfig) (a : Segment) (k : Nat) :
    sandwich_pass gen config [a] k = ([a], [], false, k) := rfl

theorem sandwich_pass_two (gen : Nat → String)
    (config : SegmentationConfig) (a b : Segment) (k : Nat) :
    sandwich_pass gen config [a, b] k = ([a, b], [], false, k) := rfl

theorem sandwich_pass_cons (gen : Nat → String)
    (config : SegmentationConfig) (a b c : Segment) (rest : List Segment)
    (k : Nat) :
    sandwich_pass gen config (a :: b :: c :: rest) k =
      if sandwichable config a b c then
        (mergedSegment a c :: (sandwich_pass gen config rest (k + 1)).1,
         interruptionOf gen k a b c ::
           (sandwich_pass gen config rest (k + 1)).2.1,
         true, (sandwich_pass gen config rest (k + 1)).2.2.2)
      else
        (a :: (sandwich_pass gen config (b :: c :: rest) k).1,
         (sandwich_pass gen config (b :: c :: rest) k).2.1,
         (sandwich_pass gen config (b :: c :: rest) k).2.2.1,
         (sandwich_pass gen config (b :: c :: rest) k).2.2.2) := rfl

theorem sandwich_pass_len (gen : Nat → String)
    (config : SegmentationConfig) :
    ∀ (n : Nat) (segs : List Segment) (k : Nat), segs.length ≤ n →
      (sandwich_pass gen config segs k).1.length ≤ segs.length := by
  intro n
  induction n with
  | zero =>
    intro segs k hlen
    have : segs = [] := List.length_eq_zero.mp (Nat.le_zero.mp hlen)
    subst this
    simp [sandwich_pass_nil]
  | succ n ih =>
    intro segs k hlen
    match segs with
    | [] => simp [sandwich_pass_nil]
    | [a] => simp [sandwich_pass_one]
    | [a, b] => simp [sandwich_pass_two]
    | a :: b :: c :: rest =>
      rw [sandwich_pass_cons]
      by_cases h : sandwichable config a b c
      · rw [if_pos h]
        have hr : rest.length ≤ n := by
          simp at hlen
          omega
        have := ih rest (k + 1) hr
        simp
        omega
      · rw [if_neg h]
        have hr : (b :: c :: rest).length ≤ n := by
          simp at hlen
          simp
          omega
        have := ih (b :: c :: rest) k hr
        simp at this ⊢
        omega

theorem sandwich_pass_flag (gen : Nat → String)
    (config : SegmentationConfig) :
    ∀ (n : Nat) (segs : List Segment) (k : Nat), segs.length ≤ n →
      ((sandwich_pass gen config segs k).2.2.1 = false →
        (sandwich_pass gen config segs k).1 = segs ∧
        (sandwich_pass gen config segs k).2.1 = [] ∧
        NoTriple config segs) ∧
      (NoTriple config segs →
        (sandwich_pass gen config segs k).2.2.1 = false) ∧
      ((sandwich_pass gen config segs k).2.2.1 = true →
        (sandwich_pass gen config segs k).1.length + 2 ≤ segs.length) := by
  intro n
  induction n with
  | zero =>
    intro segs k hlen
    have : segs = [] := List.length_eq_zero.mp (Nat.le_zero.mp hlen)
    subst this
    refine ⟨fun _ => ⟨rfl, rfl, NoTriple.nil⟩, fun _ => rfl, fun h => ?_⟩
    cases h
  | succ n ih =>
    intro segs k hlen
    match segs with
    | [] =>
      refine ⟨fun _ => ⟨rfl, rfl, NoTriple.nil⟩, fun _ => rfl, fun h => ?_⟩
      cases h
    | [a] =>
      refine ⟨fun _ => ⟨rfl, rfl, NoTriple.single a⟩, fun _ => rfl,
        fun h => ?_⟩
      cases h
    | [a, b] =>
      refine ⟨fun _ => ⟨rfl, rfl, NoTriple.pair a b⟩, fun _ => rfl,
        fun h => ?_⟩
      cases h
    | a :: b :: c :: rest =>
      by_cases h : sandwichable config a b c
      · refine ⟨?_, ?_, ?_⟩
        · intro hfalse
          rw [sandwich_pass_cons, if_pos h] at hfalse
          cases hfalse
        · intro hnt
          cases hnt with
          | cons _ _ _ _ hno _ => exact absurd h hno
        · intro _
          rw [sandwich_pass_cons, if_pos h]
          have hr : rest.length ≤ n := by
            simp at hlen
            omega
          have := sandwich_pass_len gen config n rest (k + 1) hr
          simp
          omega
      · have hr : (b :: c :: rest).length ≤ n := by
          simp at hlen
          simp
          omega
        have ihr := ih (b :: c :: rest) k hr
        refine ⟨?_, ?_, ?_⟩
        · intro hfalse
          rw [sandwich_pass_cons, if_neg h] at hfalse ⊢
          simp only at hfalse
          obtain ⟨h1, h2, h3⟩ := ihr.1 hfalse
          refine ⟨by rw [h1], h2, NoTriple.cons a b c rest h h3⟩
        · intro hnt
          rw [sandwich_pass_cons, if_neg h]
          simp only
          cases hnt with
          | cons _ _ _ _ _ hrest => exact ihr.2.1 hrest
        · intro htrue
          rw [sandwich_pass_cons, if_neg h] at htrue ⊢
          simp only at htrue ⊢
          have := ihr.2.2 htrue
          simp at this ⊢
          omega

theorem sandwich_pass_durOk (gen : Nat → String)
    (config : SegmentationConfig) :
    ∀ (n : Nat) (segs : List Segment) (k : Nat), segs.length ≤ n →
      (∀ s ∈ segs, DurOk s) →
      ∀ s ∈ (sandwich_pass gen config segs k).1, DurOk s := by
  intro n
  induction n with
  | zero =>
    intro segs k hlen hall
    have : segs = [] := List.length_eq_zero.mp (Nat.le_zero.mp hlen)
    subst this
    simp [sandwich_pass_nil]
  | succ n ih =>
    intro segs k hlen hall
    match segs with
    | [] => simp [sandwich_pass_nil]
    | [a] =>
      rw [sandwich_pass_one]
      exact hall
    | [a, b] =>
      rw [sandwich_pass_two]
      exact hall
    | a :: b :: c :: rest =>
      rw [sandwich_pass_cons]
      by_cases h : sandwichable config a b c
      · rw [if_pos h]
        intro s hs
        rcases List.mem_cons.mp hs with rfl | hs
        · simp [DurOk, mergedSegment]
        · have hr : rest.length ≤ n := by
            simp at hlen
            omega
          refine ih rest (k + 1) hr ?_ s hs
          intro t ht
          exact hall t (by simp [ht])
      · rw [if_neg h]
        intro s hs
        rcases List.mem_cons.mp hs with rfl | hs
        · exact hall s (List.mem_cons_self s _)
        · have hr : (b :: c :: rest).length ≤ n := by
            simp at hlen
            simp
            omega
          refine ih (b :: c :: rest) k hr ?_ s hs
          intro t ht
          exact hall t (List.mem_cons_of_mem a ht)

theorem sandwich_loop_noTriple (gen : Nat → String)
    (config : SegmentationConfig) :
    ∀ (fuel : Nat) (segs : List Segment) (acc : List Interruption)
      (k : Nat), segs.length < fuel →
      NoTriple config (sandwich_loop gen config fuel segs acc k).1 := by
  intro fuel
  induction fuel with
  | zero =>
    intro segs acc k hlt
    exact absurd hlt (Nat.not_lt_zero _)
  | succ fuel ih =>
    intro segs acc k hlt
    show NoTriple config
      (if (sandwich_pass gen config segs k).2.2.1 then
        sandwich_loop gen config fuel (sandwich_pass gen config segs k).1
          (acc ++ (sandwich_pass gen config segs k).2.1)
          (sandwich_pass gen config segs k).2.2.2
      else ((sandwich_pass gen config segs k).1,
        acc ++ (sandwich_pass gen config segs k).2.1,
        (sandwich_pass gen config segs k).2.2.2)).1
    by_cases hm : (sandwich_pass gen config segs k).2.2.1 = true
    · rw [if_pos hm]
      have hlen := (sandwich_pass_flag gen config segs.length segs k
        le_rfl).2.2 hm
      exact ih _ _ _ (by omega)
    · rw [if_neg hm]
      have hfix := (sandwich_pass_flag gen config segs.length segs k
        le_rfl).1 (Bool.not_eq_true _ ▸ hm)
      simp only [hfix.1]
      exact hfix.2.2

theorem sandwich_loop_durOk (gen : Nat → String)
    (config : SegmentationConfig) :
    ∀ (fuel : Nat) (segs : List Segment) (acc : List Interruption)
      (k : Nat), (∀ s ∈ segs, DurOk s) →
      ∀ s ∈ (sandwich_loop gen config fuel segs acc k).1, DurOk s := by
  intro fuel
  induction fuel with
  | zero =>
    intro segs acc k hall
    exact hall
  | succ fuel ih =>
    intro segs acc k hall
    have hpass := sandwich_pass_durOk gen config segs.length segs k le_rfl
      hall
    show ∀ s ∈
      (if (sandwich_pass gen config segs k).2.2.1 then
        sandwich_loop gen config fuel (sandwich_pass gen config segs k).1
          (acc ++ (sandwich_pass gen config segs k).2.1)
          (sandwich_pass gen config segs k).2.2.2
      else ((sandwich_pass gen config segs k).1,
        acc ++ (sandwich_pass gen config segs k).2.1,
        (sandwich_pass gen config segs k).2.2.2)).1, DurOk s
    by_cases hm : (sandwich_pass gen config segs k).2.2.1 = true
    · rw [if_pos hm]
      exact ih _ _ _ hpass
    · rw [if_neg hm]
      exact hpass

/-- The sandwich merge output never contains a qualifying adjacent
triple: scanning really repeated until none was left. -/
theorem sandwich_merge_noTriple (gen : Nat → String)
    (config : SegmentationConfig) (segs : List Segment) (k : Nat) :
    NoTriple config (sandwich_merge gen k config segs).1 :=
  sandwich_loop_noTriple gen config (segs.length + 1) segs [] k
    (Nat.lt_succ_self _)

theorem sandwich_merge_durOk (gen : Nat → String)
    (config : SegmentationConfig) (segs : List Segment) (k : Nat)
    (hall : ∀ s ∈ segs, DurOk s) :
    ∀ s ∈ (sandwich_merge gen k config segs).1, DurOk s :=
  sandwich_loop_durOk gen config (segs.length + 1) segs [] k hall

/-! C6: sandwich merge. -/

/-- C6 counterexample: a triple whose middle segment is 5 s long — well
under the 12 s threshold — and whose outer segments share one app identity
is not collapsed, because the middle segment is Transitioning: the source
additionally requires the middle segment to be Stable. -/
theorem c6_transitioning_middle_counterexample :
    trioA.bundle_id = trioC.bundle_id ∧
    trioB.duration_secs ≤
      (SegmentationConfig.default.sandwich_max_duration_secs : Int) ∧
    (sandwich_merge genU 0 SegmentationConfig.default
        [trioA, trioB, trioC]).1.map (fun s => s.id) = ["a", "b", "c"] ∧
    (sandwich_merge genU 0 SegmentationConfig.default
        [trioA, trioB, trioC]).2.1 = [] := by
  refine ⟨by decide, by decide, by rfl, by rfl⟩

/-- C6 amended: when the scan meets an adjacent triple (A, B, C) with A and
C sharing one app identity, B Stable, and B at most the threshold, the
triple collapses into one segment spanning A.start..C.end with summed
reading counts, and B becomes an Interruption owned by the merged segment
(which keeps the id of A); scanning repeats until no adjacent triple
qualifies; the concrete A-B-A-B-A chain folds into one host segment owning
both interruptions. -/
theorem c6_amended (gen : Nat → String) (config : SegmentationConfig) :
    (∀ (a b c : Segment) (rest : List Segment) (k : Nat),
      sandwichable config a b c →
      (sandwich_pass gen config (a :: b :: c :: rest) k).1 =
        mergedSegment a c :: (sandwich_pass gen config rest (k + 1)).1 ∧
      (sandwich_pass gen config (a :: b :: c :: rest) k).2.1 =
        interruptionOf gen k a b c ::
          (sandwich_pass gen config rest (k + 1)).2.1 ∧
      (mergedSegment a c).start_time = a.start_time ∧
      (mergedSegment a c).end_time = c.end_time ∧
      (mergedSegment a c).reading_count =
        a.reading_count + c.reading_count ∧
      (mergedSegment a c).id = a.id ∧
      (interruptionOf gen k a b c).segment_id = (mergedSegment a c).id ∧
      (interruptionOf gen k a b c).bundle_id = b.bundle_id ∧
      (interruptionOf gen k a b c).timestamp = b.start_time ∧
      (interruptionOf gen k a b c).duration_secs = b.duration_secs) ∧
    (∀ (segs : List Segment) (k : Nat),
      NoTriple config (sandwich_merge gen k config segs).1) ∧
    ((sandwich_merge genU 0 SegmentationConfig.default chainSegs).1.map
        (fun s => (s.id, s.start_time, s.end_time)) =
      [("a1", 0, 100000)] ∧
     (sandwich_merge genU 0 SegmentationConfig.default chainSegs).2.1.map
        (fun i => i.segment_id) = ["a1", "a1"]) := by
  refine ⟨?_, fun segs k => sandwich_merge_noTriple gen config segs k,
    by rfl, by rfl⟩
  intro a b c rest k h
  rw [sandwich_pass_cons, if_pos h]
  exact ⟨rfl, rfl, rfl, rfl, rfl, rfl, rfl, rfl, rfl, rfl⟩

/-- C6 witness: the collapse equation instantiated on a concrete
qualifying triple. -/
theorem c6_amended_witness :
    sandwichable SegmentationConfig.default (mkSegment "a1" "app.x" 0 30000
        .stable 7) (mkSegment "b1" "app.y" 30000 35000 .stable 1)
      (mkSegment "a2" "app.x" 35000 65000 .stable 7) ∧
    (sandwich_pass genU SegmentationConfig.default
        [mkSegment "a1" "app.x" 0 30000 .stable 7,
         mkSegment "b1" "app.y" 30000 35000 .stable 1,
         mkSegment "a2" "app.x" 35000 65000 .stable 7] 0).1 =
      mergedSegment (mkSegment "a1" "app.x" 0 30000 .stable 7)
          (mkSegment "a2" "app.x" 35000 65000 .stable 7) ::
        (sandwich_pass genU SegmentationConfig.default [] 1).1 := by
  have h : sandwichable SegmentationConfig.default
      (mkSegment "a1" "app.x" 0 30000 .stable 7)
      (mkSegment "b1" "app.y" 30000 35000 .stable 1)
      (mkSegment "a2" "app.x" 35000 65000 .stable 7) := by decide
  exact ⟨h, ((c6_amended genU SegmentationConfig.default).1 _ _ _ [] 0 h).1⟩

/-! C2: duration bookkeeping, amended part. -/

theorem score_segment_start (config : SegmentationConfig)
    (rs : List ContextReading) (s : Segment) :
    (score_segment config rs s).start_time = s.start_time := rfl

theorem score_segment_end (config : SegmentationConfig)
    (rs : List ContextReading) (s : Segment) :
    (score_segment config rs s).end_time = s.end_time := rfl

theorem score_segment_duration (config : SegmentationConfig)
    (rs : List ContextReading) (s : Segment) :
    (score_segment config rs s).duration_secs = s.duration_secs := rfl

theorem durOk_transitionSegment (gen : Nat → String)
    (ord : Nat → List String → List String) (k : Nat)
    (m : ReadingGroup) : DurOk (transitionSegment gen ord k m) := by
  simp [DurOk, transitionSegment, ReadingGroup.duration_secs]

theorem durOk_stableSegment (gen : Nat → String)
    (ord : Nat → List String → List String) (k : Nat)
    (g : ReadingGroup) : DurOk (stableSegment gen ord k g) := by
  simp [DurOk, stableSegment, ReadingGroup.duration_secs]

theorem create_initial_aux_durOk (gen : Nat → String)
    (ord : Nat → List String → List String) :
    ∀ (groups acc : List ReadingGroup) (k : Nat),
      ∀ swr ∈ (create_initial_aux gen ord groups acc k).1, DurOk swr.segment := by
  intro groups
  induction groups with
  | nil =>
    intro acc k swr hmem
    match acc with
    | [] => cases hmem
    | a :: rest =>
      simp only [create_initial_aux] at hmem
      rcases List.mem_singleton.mp hmem with rfl
      exact durOk_transitionSegment gen ord k _
  | cons g gs ih =>
    intro acc k swr hmem
    by_cases ht : g.is_transitioning
    · simp only [create_initial_aux, ht, if_true] at hmem
      exact ih (acc ++ [g]) k swr hmem
    · simp only [create_initial_aux, ht, Bool.false_eq_true,
        if_false] at hmem
      match acc with
      | [] =>
        simp only at hmem
        rcases List.mem_cons.mp hmem with rfl | hmem
        · exact durOk_stableSegment gen ord k g
        · exact ih [] (k + 1) swr hmem
      | a :: rest =>
        simp only at hmem
        rcases List.mem_cons.mp hmem with rfl | hmem
        · exact durOk_transitionSegment gen ord k _
        · rcases List.mem_cons.mp hmem with rfl | hmem
          · exact durOk_stableSegment gen ord (k + 1) g
          · exact ih [] (k + 2) swr hmem

theorem create_initial_durOk (gen : Nat → String)
    (ord : Nat → List String → List String) (k : Nat)
    (groups : List ReadingGroup) :
    ∀ swr ∈ (create_initial_segments_with_readings gen ord k groups).1,
      DurOk swr.segment := by
  match groups with
  | [] => intro swr h; cases h
  | g :: gs => exact create_initial_aux_durOk gen ord (g :: gs) [] k

theorem classify_mem (config : SegmentationConfig) (l : List Segment) :
    ∀ s ∈ classify_segments config l, ∃ u ∈ l,
      s.duration_secs = u.duration_secs ∧ s.start_time = u.start_time ∧
      s.end_time = u.end_time := by
  intro s hs
  unfold classify_segments at hs
  rcases List.mem_map.mp hs with ⟨u, hu, heq⟩
  refine ⟨u, hu, ?_⟩
  by_cases hc : u.segment_type = SegmentType.transitioning ∧
      (config.distracted_threshold_secs : Int) ≤ u.duration_secs
  · rw [if_pos hc] at heq
    rw [← heq]
    exact ⟨rfl, rfl, rfl⟩
  · rw [if_neg hc] at heq
    rw [← heq]
    exact ⟨rfl, rfl, rfl⟩

theorem create_single_durOk (gen : Nat → String)
    (ord : Nat → List String → List String)
    (readings : List ContextReading) (sid : String)
    (config : SegmentationConfig) :
    ∀ s ∈ (create_single_segment_for_session gen ord readings sid config).1,
      DurOk s := by
  intro s hs
  unfold create_single_segment_for_session at hs
  by_cases h : readings.isEmpty
  · rw [if_pos h] at hs
    cases hs
  · rw [if_neg h] at hs
    simp only at hs
    rcases List.mem_singleton.mp hs with rfl
    simp [DurOk, singleSegmentBase]

/-- C2 amended: for every input and every configuration, each produced
segment satisfies duration_secs = whole seconds of (end_time −
start_time); no capture interval is added on any path (initial, merged or
single-segment). -/
theorem c2_amended (gen : Nat → String)
    (ord : Nat → List String → List String)
    (readings : List ContextReading)
    (config : SegmentationConfig) :
    ∀ s ∈ (segment_session gen ord readings config).1, DurOk s := by
  intro s hs
  by_cases h1 : readings.isEmpty
  · simp only [segment_session, h1, if_true] at hs
    cases hs
  · rw [Bool.not_eq_true] at h1
    by_cases h2 : u64ofI64 (chronoNumSeconds
        ((readings.getLastD default).timestamp -
          (readings.headI).timestamp)) <
        config.min_segment_duration_secs
    · simp only [segment_session, h1, Bool.false_eq_true, if_false, h2,
        if_true] at hs
      exact create_single_durOk gen ord readings _ config s hs
    · by_cases h3 : readings.all (fun r =>
          r.window_metadata.bundle_id =
            (readings.headI).window_metadata.bundle_id)
      · simp only [segment_session, h1, Bool.false_eq_true, if_false, h2,
          h3, if_true] at hs
        exact create_single_durOk gen ord readings _ config s hs
      · rw [Bool.not_eq_true] at h3
        simp only [segment_session, h1, Bool.false_eq_true, if_false, h2,
          h3] at hs
        rcases List.mem_map.mp hs with ⟨u, hu, heq⟩
        rcases classify_mem config _ u hu with ⟨v, hv, hd, hst, hen⟩
        have hvd : DurOk v := by
          refine sandwich_merge_durOk gen config _ _ ?_ v hv
          intro w hw
          rcases List.mem_map.mp hw with ⟨swr, hswr, hweq⟩
          rw [← hweq]
          exact create_initial_durOk gen ord 0 _ swr hswr
        rw [← heq]
        unfold DurOk
        rw [score_segment_duration, score_segment_start, score_segment_end,
          hd, hst, hen]
        exact hvd

/-- C2 witness: the amended bookkeeping at the concrete single-app run,
whose segment spans 45 seconds and stores duration_secs 45. -/
theorem c2_amended_witness :
    (segment_session genU ordId readingsSingleApp
        SegmentationConfig.default).1.headI ∈
      (segment_session genU ordId readingsSingleApp
        SegmentationConfig.default).1 ∧
    DurOk ((segment_session genU ordId readingsSingleApp
        SegmentationConfig.default).1.headI) := by
  have hne : (segment_session genU ordId readingsSingleApp
      SegmentationConfig.default).1 ≠ [] := by
    intro h
    have hm : (segment_session genU ordId readingsSingleApp
        SegmentationConfig.default).1.map sKey = [(0, 45000)] := by rfl
    rw [h] at hm
    cases hm
  have hmem := headI_mem _ hne
  exact ⟨hmem, c2_amended genU ordId readingsSingleApp SegmentationConfig.default
    _ hmem⟩

/-! C1: coverage, amended part — list helpers. -/

theorem getLastD_congr {α : Type} (l : List α) (d d2 : α) (h : l ≠ []) :
    l.getLastD d = l.getLastD d2 := by
  rw [List.getLastD_eq_getLast?, List.getLastD_eq_getLast?]
  cases hl : l.getLast? with
  | none => exact absurd (List.getLast?_eq_none_iff.mp hl) h
  | some x => rfl

theorem getLastD_mem {α : Type} :
    ∀ (l : List α) (d : α), l ≠ [] → l.getLastD d ∈ l := by
  intro l
  induction l with
  | nil => intro d h; exact absurd rfl h
  | cons a t ih =>
    intro d _
    rw [List.getLastD_cons]
    cases ht : t with
    | nil => simp
    | cons b t2 =>
      have := ih a (by rw [ht]; exact List.cons_ne_nil b t2)
      rw [ht] at this
      exact List.mem_cons_of_mem a this

theorem pairwise_ts_le_last :
    ∀ (rs : List ContextReading),
      rs.Pairwise (fun a b => a.timestamp < b.timestamp) →
      ∀ r ∈ rs, r.timestamp ≤ (rs.getLastD default).timestamp := by
  intro rs
  induction rs with
  | nil => intro _ r hr; cases hr
  | cons x xs ih =>
    intro hp r hr
    have hp2 := List.pairwise_cons.mp hp
    rw [List.getLastD_cons]
    cases hxs : xs with
    | nil =>
      rcases List.mem_cons.mp hr with rfl | hr2
      · simp [List.getLastD_nil]
      · rw [hxs] at hr2; cases hr2
    | cons y ys =>
      have hne : xs ≠ [] := by rw [hxs]; exact List.cons_ne_nil y ys
      have hcongr : xs.getLastD x = xs.getLastD default :=
        getLastD_congr xs x default hne
      rw [← hxs, hcongr]
      rcases List.mem_cons.mp hr with rfl | hr2
      · have hlm : xs.getLastD default ∈ xs := getLastD_mem xs default hne
        exact le_of_lt (hp2.1 _ hlm)
      · exact ih hp2.2 r hr2

theorem groups_head_le_last :
    ∀ (gs : List ReadingGroup) (lo hi : Int), GroupsChain gs →
      GroupsWithin lo hi gs → gs ≠ [] →
      (gs.headI).start_time ≤ ((gs.getLastD default).end_time) := by
  intro gs
  induction gs with
  | nil => intro lo hi _ _ h; exact absurd rfl h
  | cons g t ih =>
    intro lo hi hc hw _
    rw [List.getLastD_cons]
    cases ht : t with
    | nil =>
      simp only [List.getLastD_nil, List.headI]
      exact (hw g (List.mem_cons_self g t)).2.1
    | cons h2 t2 =>
      have hne : t ≠ [] := by rw [ht]; exact List.cons_ne_nil h2 t2
      rw [← ht, getLastD_congr t g default hne]
      have hc2 := List.chain'_cons'.mp hc
      have hrel : g.end_time < h2.start_time := by
        have := hc2.1 h2
        rw [ht] at this
        exact this rfl
      have hih := ih lo hi hc2.2 (fun x hx => hw x (List.mem_cons_of_mem g hx)) hne
      have hg := hw g (List.mem_cons_self g t)
      have hh : t.headI = h2 := by rw [ht]; rfl
      rw [hh] at hih
      simp only [List.headI]
      exact le_of_lt (lt_of_le_of_lt hg.2.1 (lt_of_lt_of_le hrel hih))

/-! Grouping-stage invariants. -/

theorem group_readings_aux_spec (lo hi : Int) :
    ∀ (rest : List ContextReading) (cur : ReadingGroup),
      lo ≤ cur.start_time → cur.start_time ≤ cur.end_time →
      cur.end_time ≤ hi →
      (∀ r ∈ rest, cur.end_time < r.timestamp) →
      rest.Pairwise (fun a b => a.timestamp < b.timestamp) →
      (∀ r ∈ rest, r.timestamp ≤ hi) →
      GroupsChain (group_readings_aux cur rest) ∧
      GroupsWithin lo hi (group_readings_aux cur rest) ∧
      (group_readings_aux cur rest).head?.map ReadingGroup.start_time =
        some cur.start_time := by
  intro rest
  induction rest with
  | nil =>
    intro cur h1 h2 h3 _ _ _
    refine ⟨List.chain'_singleton cur, ?_, rfl⟩
    intro g hg
    rcases List.mem_singleton.mp hg with rfl
    exact ⟨h1, h2, h3⟩
  | cons r rest2 ih =>
    intro cur h1 h2 h3 h4 h5 h6
    have hp2 := List.pairwise_cons.mp h5
    by_cases hb : cur.bundle_id = r.window_metadata.bundle_id
    · rw [group_readings_aux, if_pos hb]
      refine ih _ h1 ?_ ?_ ?_ hp2.2 ?_
      · exact le_of_lt (lt_of_le_of_lt h2 (h4 r (List.mem_cons_self r _)))
      · exact h6 r (List.mem_cons_self r _)
      · intro x hx
        exact hp2.1 x hx
      · intro x hx
        exact h6 x (List.mem_cons_of_mem r hx)
    · rw [group_readings_aux, if_neg hb]
      have hnew := ih (newGroup r)
        (le_of_lt (lt_of_le_of_lt (le_trans h1 h2)
          (h4 r (List.mem_cons_self r _))))
        le_rfl (h6 r (List.mem_cons_self r _))
        (fun x hx => hp2.1 x hx) hp2.2
        (fun x hx => h6 x (List.mem_cons_of_mem r hx))
      refine ⟨?_, ?_, rfl⟩
      · refine List.chain'_cons'.mpr ⟨?_, hnew.1⟩
        intro y hy
        have hh := hnew.2.2
        cases hhead : (group_readings_aux (newGroup r) rest2).head? with
        | none => rw [hhead] at hy; cases hy
        | some z =>
          rw [hhead] at hy hh
          have hzy : z = y := by simpa using hy
          subst hzy
          have hz : z.start_time = (newGroup r).start_time := by
            simpa using hh
          rw [hz]
          exact h4 r (List.mem_cons_self r _)
      · intro g hg
        rcases List.mem_cons.mp hg with rfl | hg2
        · exact ⟨h1, h2, h3⟩
        · exact hnew.2.1 g hg2

theorem group_readings_spec (readings : List ContextReading)
    (hne : readings ≠ [])
    (hp : readings.Pairwise (fun a b => a.timestamp < b.timestamp)) :
    GroupsChain (group_readings readings) ∧
    GroupsWithin (readings.headI).timestamp
      ((readings.getLastD default).timestamp) (group_readings readings) ∧
    (group_readings readings).head?.map ReadingGroup.start_time =
      some (readings.headI).timestamp := by
  match readings, hne with
  | r :: rest, _ =>
    have hp2 := List.pairwise_cons.mp hp
    have hlast := pairwise_ts_le_last (r :: rest) hp
    have haux := group_readings_aux_spec r.timestamp
      (((r :: rest).getLastD default).timestamp) rest (newGroup r)
      le_rfl le_rfl (hlast r (List.mem_cons_self r rest))
      (fun x hx => hp2.1 x hx) hp2.2
      (fun x hx => hlast x (List.mem_cons_of_mem r hx))
    exact haux

/-! detect_transitions only toggles the transition flag: the interval
projection of the group list is untouched. -/

theorem markWithinWindow_gKey (wEnd : Int) :
    ∀ (l : List ReadingGroup),
      (markWithinWindow wEnd l).map gKey = l.map gKey := by
  intro l
  induction l with
  | nil => rfl
  | cons g rest ih =>
    unfold markWithinWindow
    by_cases h : g.start_time ≤ wEnd
    · rw [if_pos h]
      simp only [List.map_cons, ih]
      rfl
    · rw [if_neg h]

theorem applyWindow_gKey (config : SegmentationConfig)
    (gs : List ReadingGroup) (i : Nat) :
    (applyWindow config gs i).map gKey = gs.map gKey := by
  unfold applyWindow
  split
  · rfl
  · dsimp only
    split
    · rfl
    · have hcase : ∀ (cond : Bool) (wEnd : Int),
          (if cond = true then
            List.take i gs ++ markWithinWindow wEnd (List.drop i gs)
          else gs).map gKey = gs.map gKey := by
        intro cond wEnd
        cases cond
        · rw [if_neg (by simp)]
        · rw [if_pos rfl, List.map_append, markWithinWindow_gKey,
            ← List.map_append, List.take_append_drop]
      exact hcase _ _

theorem detect_transitions_gKey (config : SegmentationConfig)
    (gs : List ReadingGroup) :
    (detect_transitions config gs).map gKey = gs.map gKey := by
  unfold detect_transitions
  by_cases h : gs.length < 2
  · rw [if_pos h]
  · rw [if_neg h]
    have hfold : ∀ (l : List Nat) (acc : List ReadingGroup),
        ((l.foldl (applyWindow config) acc).map gKey) = acc.map gKey := by
      intro l
      induction l with
      | nil => intro acc; rfl
      | cons i is ih =>
        intro acc
        rw [List.foldl_cons, ih, applyWindow_gKey]
    exact hfold _ gs

theorem groupsChain_of_gKey_eq {l l2 : List ReadingGroup}
    (h : l.map gKey = l2.map gKey) (hc : GroupsChain l) : GroupsChain l2 := by
  have h1 : List.Chain' (fun p q : Int × Int => p.2 < q.1) (l.map gKey) :=
    (List.chain'_map gKey).mpr hc
  rw [h] at h1
  exact (List.chain'_map gKey).mp h1

theorem groupsWithin_of_gKey_eq {lo hi : Int} {l l2 : List ReadingGroup}
    (h : l.map gKey = l2.map gKey) (hw : GroupsWithin lo hi l) :
    GroupsWithin lo hi l2 := by
  intro g hg
  have hmem : gKey g ∈ l2.map gKey := List.mem_map_of_mem gKey hg
  rw [← h] at hmem
  rcases List.mem_map.mp hmem with ⟨g2, hg2, hkey⟩
  have hs : g2.start_time = g.start_time := congrArg Prod.fst hkey
  have he : g2.end_time = g.end_time := congrArg Prod.snd hkey
  have := hw g2 hg2
  rw [hs, he] at this
  exact this

theorem head_start_of_gKey_eq {l l2 : List ReadingGroup}
    (h : l.map gKey = l2.map gKey) :
    l.head?.map ReadingGroup.start_time =
      l2.head?.map ReadingGroup.start_time := by
  have hh := congrArg (fun x : List (Int × Int) => x.head?.map Prod.fst) h
  simpa [List.head?_map, Option.map_map, Function.comp] using hh

theorem nil_iff_of_gKey_eq {l l2 : List ReadingGroup}
    (h : l.map gKey = l2.map gKey) : l = [] ↔ l2 = [] := by
  constructor
  · intro hl
    subst hl
    exact List.map_eq_nil.mp h.symm
  · intro hl
    subst hl
    exact List.map_eq_nil.mp h

/-! Initial-segment construction preserves the interval structure. -/

theorem transitionSegment_start (gen : Nat → String)
    (ord : Nat → List String → List String) (k : Nat)
    (m : ReadingGroup) :
    (transitionSegment gen ord k m).start_time = m.start_time := rfl

theorem transitionSegment_end (gen : Nat → String)
    (ord : Nat → List String → List String) (k : Nat)
    (m : ReadingGroup) :
    (transitionSegment gen ord k m).end_time = m.end_time := rfl

theorem stableSegment_start (gen : Nat → String)
    (ord : Nat → List String → List String) (k : Nat)
    (g : ReadingGroup) : (stableSegment gen ord k g).start_time = g.start_time :=
  rfl

theorem stableSegment_end (gen : Nat → String)
    (ord : Nat → List String → List String) (k : Nat)
    (g : ReadingGroup) : (stableSegment gen ord k g).end_time = g.end_time := rfl

theorem mtg_start :
    ∀ (gs : List ReadingGroup) (g : ReadingGroup),
      (merge_transition_groups g gs).start_time = g.start_time := by
  intro gs
  induction gs with
  | nil => intro g; rfl
  | cons h t ih =>
    intro g
    show (merge_transition_groups
      { g with readings := g.readings ++ h.readings,
               end_time := h.end_time } t).start_time = g.start_time
    rw [ih]

theorem mtg_end :
    ∀ (gs : List ReadingGroup) (g : ReadingGroup),
      (merge_transition_groups g gs).end_time =
        ((g :: gs).getLastD default).end_time := by
  intro gs
  induction gs with
  | nil => intro g; rfl
  | cons h t ih =>
    intro g
    show (merge_transition_groups
      { g with readings := g.readings ++ h.readings,
               end_time := h.end_time } t).end_time = _
    rw [ih]
    rw [List.getLastD_cons, List.getLastD_cons, List.getLastD_cons]
    cases htt : t with
    | nil => rfl
    | cons x y =>
      exact congrArg (fun q => q.end_time)
        (getLastD_congr (x :: y) _ h (List.cons_ne_nil x y))

theorem getLast?_cons_eq (a : ReadingGroup) (l : List ReadingGroup) :
    (a :: l).getLast? = some ((a :: l).getLastD default) := by
  cases hy : (a :: l).getLast? with
  | none =>
    exact absurd (List.getLast?_eq_none_iff.mp hy) (List.cons_ne_nil a l)
  | some y =>
    rw [List.getLastD_eq_getLast?, hy]
    rfl

theorem create_initial_aux_spec (gen : Nat → String)
    (ord : Nat → List String → List String) (lo hi : Int) :
    ∀ (groups acc : List ReadingGroup) (k : Nat),
      GroupsChain (acc ++ groups) →
      GroupsWithin lo hi (acc ++ groups) →
      SegsChain ((create_initial_aux gen ord groups acc k).1.map
        SegmentWithReadings.segment) ∧
      SegsWithin lo hi ((create_initial_aux gen ord groups acc k).1.map
        SegmentWithReadings.segment) ∧
      ((create_initial_aux gen ord groups acc k).1.map
        SegmentWithReadings.segment).head?.map Segment.start_time =
        (acc ++ groups).head?.map ReadingGroup.start_time ∧
      ((create_initial_aux gen ord groups acc k).1 = [] ↔ acc ++ groups = []) :=
    by
  intro groups
  induction groups with
  | nil =>
    intro acc k hc hw
    rw [List.append_nil] at hc hw ⊢
    match acc with
    | [] =>
      refine ⟨List.chain'_nil, ?_, rfl, by simp [create_initial_aux]⟩
      intro s hs
      cases hs
    | a :: rest =>
      have hne : a :: rest ≠ [] := List.cons_ne_nil a rest
      have hstart : (transitionSegment gen ord k
          (merge_transition_groups a rest)).start_time = a.start_time := by
        rw [transitionSegment_start, mtg_start]
      have hend : (transitionSegment gen ord k
          (merge_transition_groups a rest)).end_time =
          ((a :: rest).getLastD default).end_time := by
        rw [transitionSegment_end, mtg_end]
      refine ⟨List.chain'_singleton _, ?_, ?_, by simp [create_initial_aux]⟩
      · intro s hs
        have hs2 : s = transitionSegment gen ord k
            (merge_transition_groups a rest) := by
          simpa [create_initial_aux] using hs
        subst hs2
        refine ⟨?_, ?_, ?_⟩
        · rw [hstart]
          exact (hw a (List.mem_cons_self a rest)).1
        · rw [hstart, hend]
          exact groups_head_le_last (a :: rest) lo hi hc hw hne
        · rw [hend]
          exact (hw _ (getLastD_mem (a :: rest) default hne)).2.2
      · simp only [create_initial_aux, List.map_cons, List.map_nil,
          List.head?_cons, Option.map_some']
        rw [hstart]
  | cons g gs ih =>
    intro acc k hc hw
    by_cases ht : g.is_transitioning
    · have hassoc : (acc ++ [g]) ++ gs = acc ++ g :: gs := by simp
      have hres := ih (acc ++ [g]) k (by rw [hassoc]; exact hc)
        (by rw [hassoc]; exact hw)
      rw [hassoc] at hres
      simp only [create_initial_aux, ht, if_true]
      exact hres
    · simp only [create_initial_aux, ht, Bool.false_eq_true, if_false]
      match acc with
      | [] =>
        rw [List.nil_append] at hc hw
        have hcc := List.chain'_cons'.mp hc
        have ihr := ih [] (k + 1) (by rw [List.nil_append]; exact hcc.2)
          (by
            rw [List.nil_append]
            intro x hx
            exact hw x (List.mem_cons_of_mem g hx))
        rw [List.nil_append] at ihr
        simp only [List.map_cons]
        refine ⟨?_, ?_, ?_, by simp⟩
        · refine List.chain'_cons'.mpr ⟨?_, ihr.1⟩
          intro y hy
          cases hh : ((create_initial_aux gen ord gs [] (k + 1)).1.map
              SegmentWithReadings.segment).head? with
          | none => rw [hh] at hy; cases hy
          | some z =>
            rw [hh] at hy
            have hzy : z = y := by simpa using hy
            subst hzy
            have hhead := ihr.2.2.1
            rw [hh] at hhead
            cases hgs : gs with
            | nil =>
              rw [hgs] at hhead
              cases hhead
            | cons g2 t2 =>
              rw [hgs] at hhead
              have hz : z.start_time = g2.start_time := by simpa using hhead
              rw [stableSegment_end, hz]
              have := hcc.1 g2
              rw [hgs] at this
              exact this rfl
        · intro s hs
          rcases List.mem_cons.mp hs with rfl | hs2
          · have hg := hw g (List.mem_cons_self g gs)
            rw [stableSegment_start, stableSegment_end]
            exact hg
          · exact ihr.2.1 s hs2
        · simp only [List.head?_cons, Option.map_some', stableSegment_start]
          rfl
      | a :: rest =>
        rcases List.chain'_append.mp hc with ⟨hcacc, hcrest, hjunc⟩
        have hccr := List.chain'_cons'.mp hcrest
        have hwacc : GroupsWithin lo hi (a :: rest) := by
          intro x hx
          exact hw x (List.mem_append_left _ hx)
        have hwg := hw g (List.mem_append_right _ (List.mem_cons_self g gs))
        have ihr := ih [] (k + 2) (by rw [List.nil_append]; exact hccr.2)
          (by
            rw [List.nil_append]
            intro x hx
            exact hw x (List.mem_append_right _
              (List.mem_cons_of_mem g hx)))
        rw [List.nil_append] at ihr
        have hneacc : a :: rest ≠ [] := List.cons_ne_nil a rest
        have hstart : (transitionSegment gen ord k
            (merge_transition_groups a rest)).start_time = a.start_time := by
          rw [transitionSegment_start, mtg_start]
        have hend : (transitionSegment gen ord k
            (merge_transition_groups a rest)).end_time =
            ((a :: rest).getLastD default).end_time := by
          rw [transitionSegment_end, mtg_end]
        have hEg : ((a :: rest).getLastD default).end_time <
            g.start_time := by
          have := hjunc ((a :: rest).getLastD default)
          rw [getLast?_cons_eq] at this
          exact this rfl g rfl
        simp only [List.map_cons]
        refine ⟨?_, ?_, ?_, by simp⟩
        · refine List.chain'_cons'.mpr ⟨?_, ?_⟩
          · intro y hy
            have hzy : stableSegment gen ord (k + 1) g = y := by simpa using hy
            rw [← hzy, hend, stableSegment_start]
            exact hEg
          · refine List.chain'_cons'.mpr ⟨?_, ihr.1⟩
            intro y hy
            cases hh : ((create_initial_aux gen ord gs [] (k + 2)).1.map
                SegmentWithReadings.segment).head? with
            | none => rw [hh] at hy; cases hy
            | some z =>
              rw [hh] at hy
              have hzy : z = y := by simpa using hy
              subst hzy
              have hhead := ihr.2.2.1
              rw [hh] at hhead
              cases hgs : gs with
              | nil =>
                rw [hgs] at hhead
                cases hhead
              | cons g2 t2 =>
                rw [hgs] at hhead
                have hz : z.start_time = g2.start_time := by simpa using hhead
                rw [stableSegment_end, hz]
                have := hccr.1 g2
                rw [hgs] at this
                exact this rfl
        · intro s hs
          rcases List.mem_cons.mp hs with rfl | hs2
          · refine ⟨?_, ?_, ?_⟩
            · rw [hstart]
              exact (hwacc a (List.mem_cons_self a rest)).1
            · rw [hstart, hend]
              exact groups_head_le_last (a :: rest) lo hi hcacc hwacc hneacc
            · rw [hend]
              exact (hwacc _ (getLastD_mem (a :: rest) default hneacc)).2.2
          · rcases List.mem_cons.mp hs2 with rfl | hs3
            · rw [stableSegment_start, stableSegment_end]
              exact hwg
            · exact ihr.2.1 s hs3
        · simp only [List.head?_cons, Option.map_some']
          rw [hstart]
          simp

theorem create_initial_spec (gen : Nat → String)
    (ord : Nat → List String → List String) (lo hi : Int) (k : Nat)
    (groups : List ReadingGroup) (hc : GroupsChain groups)
    (hw : GroupsWithin lo hi groups) :
    SegsChain ((create_initial_segments_with_readings gen ord k groups).1.map
      SegmentWithReadings.segment) ∧
    SegsWithin lo hi ((create_initial_segments_with_readings gen ord k
      groups).1.map SegmentWithReadings.segment) ∧
    ((create_initial_segments_with_readings gen ord k groups).1.map
      SegmentWithReadings.segment).head?.map Segment.start_time =
      groups.head?.map ReadingGroup.start_time := by
  match groups with
  | [] =>
    refine ⟨List.chain'_nil, ?_, rfl⟩
    intro s hs
    cases hs
  | g :: gs =>
    have := create_initial_aux_spec gen ord lo hi (g :: gs) [] k
      (by rw [List.nil_append]; exact hc)
      (by rw [List.nil_append]; exact hw)
    rw [List.nil_append] at this
    exact ⟨this.1, this.2.1, this.2.2.1⟩

/-! Sandwich merging preserves the interval structure. -/

theorem sandwich_pass_inv (gen : Nat → String)
    (config : SegmentationConfig) (lo hi : Int) :
    ∀ (n : Nat) (segs : List Segment) (k : Nat), segs.length ≤ n →
      SegsChain segs → SegsWithin lo hi segs →
      SegsChain (sandwich_pass gen config segs k).1 ∧
      SegsWithin lo hi (sandwich_pass gen config segs k).1 ∧
      (sandwich_pass gen config segs k).1.head?.map Segment.start_time =
        segs.head?.map Segment.start_time := by
  intro n
  induction n with
  | zero =>
    intro segs k hlen hc hw
    have : segs = [] := List.length_eq_zero.mp (Nat.le_zero.mp hlen)
    subst this
    refine ⟨List.chain'_nil, ?_, rfl⟩
    intro s hs
    cases hs
  | succ n ih =>
    intro segs k hlen hc hw
    match segs with
    | [] =>
      refine ⟨List.chain'_nil, ?_, rfl⟩
      intro s hs
      cases hs
    | [a] => exact ⟨hc, hw, rfl⟩
    | [a, b] => exact ⟨hc, hw, rfl⟩
    | a :: b :: c :: rest =>
      have hc1 := List.chain'_cons'.mp hc
      have hc2 := List.chain'_cons'.mp hc1.2
      have hc3 := List.chain'_cons'.mp hc2.2
      have hab : a.end_time < b.start_time := hc1.1 b rfl
      have hbc : b.end_time < c.start_time := hc2.1 c rfl
      have hwa := hw a (by simp)
      have hwb := hw b (by simp)
      have hwc := hw c (by simp)
      rw [sandwich_pass_cons]
      by_cases h : sandwichable config a b c
      · rw [if_pos h]
        have hrlen : rest.length ≤ n := by
          simp at hlen
          omega
        have ihr := ih rest (k + 1) hrlen hc3.2
          (fun s hs => hw s (by simp [hs]))
        refine ⟨?_, ?_, by simp [mergedSegment]⟩
        · refine List.chain'_cons'.mpr ⟨?_, ihr.1⟩
          intro y hy
          cases hh : (sandwich_pass gen config rest (k + 1)).1.head? with
          | none => rw [hh] at hy; cases hy
          | some z =>
            rw [hh] at hy
            have hzy : z = y := by simpa using hy
            subst hzy
            have hhead := ihr.2.2
            rw [hh] at hhead
            cases hrest : rest with
            | nil =>
              rw [hrest] at hhead
              cases hhead
            | cons r2 t2 =>
              rw [hrest] at hhead
              have hz : z.start_time = r2.start_time := by simpa using hhead
              have hcr : c.end_time < r2.start_time := by
                have := hc3.1 r2
                rw [hrest] at this
                exact this rfl
              show (mergedSegment a c).end_time < z.start_time
              rw [hz]
              exact hcr
        · intro s hs
          rcases List.mem_cons.mp hs with rfl | hs2
          · refine ⟨hwa.1, ?_, hwc.2.2⟩
            show a.start_time ≤ c.end_time
            have := hwa.2.1
            have := hwb.2.1
            have := hwc.2.1
            omega
          · exact ihr.2.1 s hs2
      · rw [if_neg h]
        have hrlen : (b :: c :: rest).length ≤ n := by
          simp at hlen ⊢
          omega
        have ihr := ih (b :: c :: rest) k hrlen hc1.2
          (fun s hs => hw s (List.mem_cons_of_mem a hs))
        refine ⟨?_, ?_, by simp⟩
        · refine List.chain'_cons'.mpr ⟨?_, ihr.1⟩
          intro y hy
          cases hh : (sandwich_pass gen config (b :: c :: rest) k).1.head?
            with
          | none => rw [hh] at hy; cases hy
          | some z =>
            rw [hh] at hy
            have hzy : z = y := by simpa using hy
            subst hzy
            have hhead := ihr.2.2
            rw [hh] at hhead
            have hz : z.start_time = b.start_time := by simpa using hhead
            rw [hz]
            exact hab
        · intro s hs
          rcases List.mem_cons.mp hs with rfl | hs2
          · exact hwa
          · exact ihr.2.1 s hs2

theorem sandwich_loop_inv (gen : Nat → String)
    (config : SegmentationConfig) (lo hi : Int) :
    ∀ (fuel : Nat) (segs : List Segment) (acc : List Interruption)
      (k : Nat), SegsChain segs → SegsWithin lo hi segs →
      SegsChain (sandwich_loop gen config fuel segs acc k).1 ∧
      SegsWithin lo hi (sandwich_loop gen config fuel segs acc k).1 := by
  intro fuel
  induction fuel with
  | zero =>
    intro segs acc k hc hw
    exact ⟨hc, hw⟩
  | succ fuel ih =>
    intro segs acc k hc hw
    have hpass := sandwich_pass_inv gen config lo hi segs.length segs k
      le_rfl hc hw
    have hstep : sandwich_loop gen config (fuel + 1) segs acc k =
        if (sandwich_pass gen config segs k).2.2.1 then
          sandwich_loop gen config fuel (sandwich_pass gen config segs k).1
            (acc ++ (sandwich_pass gen config segs k).2.1)
            (sandwich_pass gen config segs k).2.2.2
        else ((sandwich_pass gen config segs k).1,
          acc ++ (sandwich_pass gen config segs k).2.1,
          (sandwich_pass gen config segs k).2.2.2) := rfl
    rw [hstep]
    by_cases hm : (sandwich_pass gen config segs k).2.2.1 = true
    · rw [if_pos hm]
      exact ih _ _ _ hpass.1 hpass.2.1
    · rw [if_neg hm]
      exact ⟨hpass.1, hpass.2.1⟩

theorem sandwich_merge_inv (gen : Nat → String)
    (config : SegmentationConfig) (lo hi : Int) (segs : List Segment)
    (k : Nat) (hc : SegsChain segs) (hw : SegsWithin lo hi segs) :
    SegsChain (sandwich_merge gen k config segs).1 ∧
    SegsWithin lo hi (sandwich_merge gen k config segs).1 :=
  sandwich_loop_inv gen config lo hi (segs.length + 1) segs [] k hc hw

/-! Classification and scoring leave the intervals untouched. -/

theorem classify_sKey (config : SegmentationConfig) :
    ∀ (l : List Segment),
      (classify_segments config l).map sKey = l.map sKey := by
  intro l
  induction l with
  | nil => rfl
  | cons s t ih =>
    unfold classify_segments at ih ⊢
    simp only [List.map_cons, ih]
    by_cases h : s.segment_type = SegmentType.transitioning ∧
        (config.distracted_threshold_secs : Int) ≤ s.duration_secs
    · rw [if_pos h]
      rfl
    · rw [if_neg h]

theorem segsChain_of_sKey_eq {l l2 : List Segment}
    (h : l.map sKey = l2.map sKey) (hc : SegsChain l) : SegsChain l2 := by
  have h1 : List.Chain' (fun p q : Int × Int => p.2 < q.1) (l.map sKey) :=
    (List.chain'_map sKey).mpr hc
  rw [h] at h1
  exact (List.chain'_map sKey).mp h1

theorem segsWithin_of_sKey_eq {lo hi : Int} {l l2 : List Segment}
    (h : l.map sKey = l2.map sKey) (hw : SegsWithin lo hi l) :
    SegsWithin lo hi l2 := by
  intro s hs
  have hmem : sKey s ∈ l2.map sKey := List.mem_map_of_mem sKey hs
  rw [← h] at hmem
  rcases List.mem_map.mp hmem with ⟨s2, hs2, hkey⟩
  have h1 : s2.start_time = s.start_time := congrArg Prod.fst hkey
  have h2 : s2.end_time = s.end_time := congrArg Prod.snd hkey
  have := hw s2 hs2
  rw [h1, h2] at this
  exact this

theorem score_map_sKey (config : SegmentationConfig)
    (rs : List ContextReading) (l : List Segment) :
    (l.map (score_segment config rs)).map sKey = l.map sKey := by
  rw [List.map_map]
  exact List.map_congr_left (fun s _ => rfl)

theorem create_single_times (gen : Nat → String)
    (ord : Nat → List String → List String)
    (rs : List ContextReading) (sid : String)
    (config : SegmentationConfig) :
    SegsChain (create_single_segment_for_session gen ord rs sid config).1 ∧
    ∀ s ∈ (create_single_segment_for_session gen ord rs sid config).1,
      s.start_time = (rs.headI).timestamp ∧
      s.end_time = (rs.getLastD default).timestamp := by
  unfold create_single_segment_for_session
  by_cases h : rs.isEmpty
  · rw [if_pos h]
    exact ⟨List.chain'_nil, by intro s hs; cases hs⟩
  · rw [if_neg h]
    refine ⟨List.chain'_singleton _, ?_⟩
    intro s hs
    have hs2 := List.mem_singleton.mp (by simpa using hs)
    subst hs2
    exact ⟨rfl, rfl⟩

/-- C1 amended: for every non-empty, strictly timestamp-ordered reading
list, the produced segments are chronological and pairwise non-overlapping,
and every segment interval lies inside [first reading, last reading]; the
union need not cover that span — the engine leaves the time between
consecutive app groups uncovered. -/
theorem c1_amended (gen : Nat → String)
    (ord : Nat → List String → List String)
    (readings : List ContextReading)
    (config : SegmentationConfig) (hne : readings ≠ [])
    (hp : readings.Pairwise (fun a b => a.timestamp < b.timestamp)) :
    SegsChain (segment_session gen ord readings config).1 ∧
    SegsWithin (readings.headI).timestamp
      ((readings.getLastD default).timestamp)
      (segment_session gen ord readings config).1 := by
  have h1 : readings.isEmpty = false := List.isEmpty_eq_false.mpr hne
  have hfl : (readings.headI).timestamp ≤
      (readings.getLastD default).timestamp :=
    pairwise_ts_le_last readings hp _ (headI_mem readings hne)
  have hsingle : ∀ sid : String,
      SegsChain (create_single_segment_for_session gen ord readings sid
        config).1 ∧
      SegsWithin (readings.headI).timestamp
        ((readings.getLastD default).timestamp)
        (create_single_segment_for_session gen ord readings sid config).1 := by
    intro sid
    have hs := create_single_times gen ord readings sid config
    refine ⟨hs.1, ?_⟩
    intro s hsm
    obtain ⟨hst, hend⟩ := hs.2 s hsm
    rw [hst, hend]
    exact ⟨le_refl _, hfl, le_refl _⟩
  by_cases h2 : u64ofI64 (chronoNumSeconds
      ((readings.getLastD default).timestamp -
        (readings.headI).timestamp)) < config.min_segment_duration_secs
  · simp only [segment_session, h1, Bool.false_eq_true, if_false, h2,
      if_true]
    exact hsingle _
  · by_cases h3 : readings.all (fun r =>
        r.window_metadata.bundle_id =
          (readings.headI).window_metadata.bundle_id)
    · simp only [segment_session, h1, Bool.false_eq_true, if_false, h2, h3,
        if_true]
      exact hsingle _
    · rw [Bool.not_eq_true] at h3
      simp only [segment_session, h1, Bool.false_eq_true, if_false, h2, h3]
      have hgr := group_readings_spec readings hne hp
      have hgk := (detect_transitions_gKey config
        (group_readings readings)).symm
      have hcg : GroupsChain (detect_transitions config
          (group_readings readings)) :=
        groupsChain_of_gKey_eq hgk hgr.1
      have hwg : GroupsWithin (readings.headI).timestamp
          ((readings.getLastD default).timestamp)
          (detect_transitions config (group_readings readings)) :=
        groupsWithin_of_gKey_eq hgk hgr.2.1
      have hinit := create_initial_spec gen ord (readings.headI).timestamp
        ((readings.getLastD default).timestamp) 0
        (detect_transitions config (group_readings readings)) hcg hwg
      have hmerge := sandwich_merge_inv gen config
        (readings.headI).timestamp
        ((readings.getLastD default).timestamp)
        ((create_initial_segments_with_readings gen ord 0
          (detect_transitions config (group_readings readings))).1.map
            SegmentWithReadings.segment)
        (create_initial_segments_with_readings gen ord 0
          (detect_transitions config (group_readings readings))).2
        hinit.1 hinit.2.1
      have hck := (classify_sKey config
        (sandwich_merge gen
          (create_initial_segments_with_readings gen ord 0
            (detect_transitions config (group_readings readings))).2 config
          ((create_initial_segments_with_readings gen ord 0
            (detect_transitions config (group_readings readings))).1.map
              SegmentWithReadings.segment)).1).symm
      have hchain2 := segsChain_of_sKey_eq hck hmerge.1
      have hwith2 := segsWithin_of_sKey_eq hck hmerge.2
      have hsk := (score_map_sKey config
        (((create_initial_segments_with_readings gen ord 0
          (detect_transitions config (group_readings readings))).1.map
            SegmentWithReadings.readings).flatten)
        (classify_segments config
          (sandwich_merge gen
            (create_initial_segments_with_readings gen ord 0
              (detect_transitions config (group_readings readings))).2
            config
            ((create_initial_segments_with_readings gen ord 0
              (detect_transitions config (group_readings readings))).1.map
                SegmentWithReadings.segment)).1)).symm
      exact ⟨segsChain_of_sKey_eq hsk hchain2,
        segsWithin_of_sKey_eq hsk hwith2⟩

/-- C1 witness: the amended guarantees at the concrete gap input. -/
theorem c1_amended_witness :
    readingsWithGap ≠ [] ∧
    readingsWithGap.Pairwise (fun a b => a.timestamp < b.timestamp) ∧
    SegsChain (segment_session genU ordId readingsWithGap
      SegmentationConfig.default).1 ∧
    SegsWithin (readingsWithGap.headI).timestamp
      ((readingsWithGap.getLastD default).timestamp)
      (segment_session genU ordId readingsWithGap
        SegmentationConfig.default).1 := by
  have hne : readingsWithGap ≠ [] := by
    unfold readingsWithGap
    exact List.cons_ne_nil _ _
  have hp : readingsWithGap.Pairwise
      (fun a b => a.timestamp < b.timestamp) := by decide
  have h := c1_amended genU ordId readingsWithGap SegmentationConfig.default hne
    hp
  exact ⟨hne, hp, h.1, h.2⟩

/-! C3: determinism up to the run-local nondeterminism. -/

/-- C3 counterexample: runs differing only in run-local nondeterminism
produce different Segment records. With two Uuid.new_v4 streams the
segment ids differ ("a0" versus "b0"); and on readings whose two window
titles tie in occurrence count, two HashMap iteration orders make the
runs pick different window_title values ("T2" versus "T1"). In both cases
the outputs are not identical in all fields. -/
theorem c3_uuid_counterexample :
    ((segment_session (fun n => "a" ++ toString n) ordId readingsSingleApp
        SegmentationConfig.default).1.map (fun s => s.id) = ["a0"] ∧
      (segment_session (fun n => "b" ++ toString n) ordId readingsSingleApp
        SegmentationConfig.default).1.map (fun s => s.id) = ["b0"] ∧
      segment_session (fun n => "a" ++ toString n) ordId readingsSingleApp
        SegmentationConfig.default ≠
        segment_session (fun n => "b" ++ toString n) ordId readingsSingleApp
          SegmentationConfig.default) ∧
    ((segment_session genU ordId readingsTiedTitles
        SegmentationConfig.default).1.map (fun s => s.window_title) =
        [some "T2"] ∧
      (segment_session genU ordRev readingsTiedTitles
        SegmentationConfig.default).1.map (fun s => s.window_title) =
        [some "T1"] ∧
      segment_session genU ordId readingsTiedTitles
        SegmentationConfig.default ≠
        segment_session genU ordRev readingsTiedTitles
          SegmentationConfig.default) := by
  have h1 : (segment_session (fun n => "a" ++ toString n) ordId
      readingsSingleApp
      SegmentationConfig.default).1.map (fun s => s.id) = ["a0"] := by rfl
  have h2 : (segment_session (fun n => "b" ++ toString n) ordId
      readingsSingleApp
      SegmentationConfig.default).1.map (fun s => s.id) = ["b0"] := by rfl
  have h4 : (segment_session genU ordId readingsTiedTitles
      SegmentationConfig.default).1.map (fun s => s.window_title) =
      [some "T2"] := by rfl
  have h5 : (segment_session genU ordRev readingsTiedTitles
      SegmentationConfig.default).1.map (fun s => s.window_title) =
      [some "T1"] := by rfl
  refine ⟨⟨h1, h2, ?_⟩, ⟨h4, h5, ?_⟩⟩
  · intro h
    have h3 := congrArg (fun p => p.1.map (fun s : Segment => s.id)) h
    dsimp only at h3
    rw [h1, h2] at h3
    exact absurd h3 (by decide)
  · intro h
    have h6 := congrArg
      (fun p => p.1.map (fun s : Segment => s.window_title)) h
    dsimp only at h6
    rw [h4, h5] at h6
    exact absurd h6 (by decide)

theorem sandwichable_congr {config : SegmentationConfig}
    {a a2 b b2 c c2 : Segment} (ha : eraseSegRun a = eraseSegRun a2)
    (hb : eraseSegRun b = eraseSegRun b2)
    (hc : eraseSegRun c = eraseSegRun c2) :
    sandwichable config a b c ↔ sandwichable config a2 b2 c2 := by
  have h1 : a.bundle_id = a2.bundle_id := congrArg (fun s => s.bundle_id) ha
  have h2 : c.bundle_id = c2.bundle_id := congrArg (fun s => s.bundle_id) hc
  have h3 : b.segment_type = b2.segment_type :=
    congrArg (fun s => s.segment_type) hb
  have h4 : b.duration_secs = b2.duration_secs :=
    congrArg (fun s => s.duration_secs) hb
  unfold sandwichable
  rw [h1, h2, h3, h4]

theorem merged_erase {a a2 c c2 : Segment}
    (ha : eraseSegRun a = eraseSegRun a2)
    (hc : eraseSegRun c = eraseSegRun c2) :
    eraseSegRun (mergedSegment a c) = eraseSegRun (mergedSegment a2 c2) := by
  have h1 : eraseSegRun (mergedSegment a c) =
      eraseSegRun (mergedSegment (eraseSegRun a) (eraseSegRun c)) := rfl
  have h2 : eraseSegRun (mergedSegment a2 c2) =
      eraseSegRun (mergedSegment (eraseSegRun a2) (eraseSegRun c2)) := rfl
  rw [h1, h2, ha, hc]

theorem intr_erase (gen gen2 : Nat → String) (k k2 : Nat)
    {a a2 b b2 c c2 : Segment} (hb : eraseSegRun b = eraseSegRun b2) :
    eraseIntrIds (interruptionOf gen k a b c) =
      eraseIntrIds (interruptionOf gen2 k2 a2 b2 c2) := by
  have h1 : eraseIntrIds (interruptionOf gen k a b c) =
      eraseIntrIds (interruptionOf genU 0 default (eraseSegRun b) default) :=
    rfl
  have h2 : eraseIntrIds (interruptionOf gen2 k2 a2 b2 c2) =
      eraseIntrIds (interruptionOf genU 0 default (eraseSegRun b2) default)
      := rfl
  rw [h1, h2, hb]

theorem sandwich_pass_erase (gen gen2 : Nat → String)
    (config : SegmentationConfig) :
    ∀ (n : Nat) (xs ys : List Segment) (k k2 : Nat), xs.length ≤ n →
      List.Forall₂ (fun s t => eraseSegRun s = eraseSegRun t) xs ys →
      List.Forall₂ (fun s t => eraseSegRun s = eraseSegRun t)
        (sandwich_pass gen config xs k).1
        (sandwich_pass gen2 config ys k2).1 ∧
      (sandwich_pass gen config xs k).2.1.map eraseIntrIds =
        (sandwich_pass gen2 config ys k2).2.1.map eraseIntrIds ∧
      (sandwich_pass gen config xs k).2.2.1 =
        (sandwich_pass gen2 config ys k2).2.2.1 := by
  intro n
  induction n with
  | zero =>
    intro xs ys k k2 hlen hrel
    have hx : xs = [] := List.length_eq_zero.mp (Nat.le_zero.mp hlen)
    subst hx
    cases hrel
    exact ⟨List.Forall₂.nil, rfl, rfl⟩
  | succ n ih =>
    intro xs ys k k2 hlen hrel
    match xs, hrel with
    | [], List.Forall₂.nil => exact ⟨List.Forall₂.nil, rfl, rfl⟩
    | [a], List.Forall₂.cons ha List.Forall₂.nil =>
      exact ⟨List.Forall₂.cons ha List.Forall₂.nil, rfl, rfl⟩
    | [a, b], List.Forall₂.cons ha (List.Forall₂.cons hb List.Forall₂.nil)
      =>
      exact ⟨List.Forall₂.cons ha (List.Forall₂.cons hb List.Forall₂.nil),
        rfl, rfl⟩
    | a :: b :: c :: rest,
      List.Forall₂.cons ha (List.Forall₂.cons hb
        (List.Forall₂.cons hc hrest)) =>
      rename_i a2 b2 c2 rest2
      rw [sandwich_pass_cons, sandwich_pass_cons]
      by_cases h : sandwichable config a b c
      · have h2 : sandwichable config a2 b2 c2 :=
          (sandwichable_congr ha hb hc).mp h
        rw [if_pos h, if_pos h2]
        have hrlen : rest.length ≤ n := by
          simp at hlen
          omega
        have ihr := ih rest rest2 (k + 1) (k2 + 1) hrlen hrest
        refine ⟨List.Forall₂.cons (merged_erase ha hc) ihr.1, ?_, rfl⟩
        simp only [List.map_cons, ihr.2.1]
        rw [intr_erase gen gen2 k k2 hb]
      · have h2 : ¬ sandwichable config a2 b2 c2 := fun hx =>
          h ((sandwichable_congr ha hb hc).mpr hx)
        rw [if_neg h, if_neg h2]
        have hrlen : (b :: c :: rest).length ≤ n := by
          simp at hlen ⊢
          omega
        have ihr := ih (b :: c :: rest) (b2 :: c2 :: rest2) k k2 hrlen
          (List.Forall₂.cons hb (List.Forall₂.cons hc hrest))
        exact ⟨List.Forall₂.cons ha ihr.1, ihr.2.1, ihr.2.2⟩

theorem sandwich_loop_erase (gen gen2 : Nat → String)
    (config : SegmentationConfig) :
    ∀ (fuel : Nat) (xs ys : List Segment) (acc acc2 : List Interruption)
      (k k2 : Nat),
      List.Forall₂ (fun s t => eraseSegRun s = eraseSegRun t) xs ys →
      acc.map eraseIntrIds = acc2.map eraseIntrIds →
      List.Forall₂ (fun s t => eraseSegRun s = eraseSegRun t)
        (sandwich_loop gen config fuel xs acc k).1
        (sandwich_loop gen2 config fuel ys acc2 k2).1 ∧
      (sandwich_loop gen config fuel xs acc k).2.1.map eraseIntrIds =
        (sandwich_loop gen2 config fuel ys acc2 k2).2.1.map eraseIntrIds :=
    by
  intro fuel
  induction fuel with
  | zero =>
    intro xs ys acc acc2 k k2 hrel hacc
    exact ⟨hrel, hacc⟩
  | succ fuel ih =>
    intro xs ys acc acc2 k k2 hrel hacc
    have hpass := sandwich_pass_erase gen gen2 config xs.length xs ys k k2
      le_rfl hrel
    have hstep1 : sandwich_loop gen config (fuel + 1) xs acc k =
        if (sandwich_pass gen config xs k).2.2.1 then
          sandwich_loop gen config fuel (sandwich_pass gen config xs k).1
            (acc ++ (sandwich_pass gen config xs k).2.1)
            (sandwich_pass gen config xs k).2.2.2
        else ((sandwich_pass gen config xs k).1,
          acc ++ (sandwich_pass gen config xs k).2.1,
          (sandwich_pass gen config xs k).2.2.2) := rfl
    have hstep2 : sandwich_loop gen2 config (fuel + 1) ys acc2 k2 =
        if (sandwich_pass gen2 config ys k2).2.2.1 then
          sandwich_loop gen2 config fuel (sandwich_pass gen2 config ys
            k2).1 (acc2 ++ (sandwich_pass gen2 config ys k2).2.1)
            (sandwich_pass gen2 config ys k2).2.2.2
        else ((sandwich_pass gen2 config ys k2).1,
          acc2 ++ (sandwich_pass gen2 config ys k2).2.1,
          (sandwich_pass gen2 config ys k2).2.2.2) := rfl
    rw [hstep1, hstep2, ← hpass.2.2]
    have haccints : (acc ++ (sandwich_pass gen config xs k).2.1).map
        eraseIntrIds =
        (acc2 ++ (sandwich_pass gen2 config ys k2).2.1).map eraseIntrIds :=
      by
      rw [List.map_append, List.map_append, hacc, hpass.2.1]
    by_cases hm : (sandwich_pass gen config xs k).2.2.1 = true
    · rw [if_pos hm, if_pos hm]
      exact ih _ _ _ _ _ _ hpass.1 haccints
    · rw [if_neg hm, if_neg hm]
      exact ⟨hpass.1, haccints⟩

theorem sandwich_merge_erase (gen gen2 : Nat → String)
    (config : SegmentationConfig) {xs ys : List Segment} (k k2 : Nat)
    (hrel : List.Forall₂ (fun s t => eraseSegRun s = eraseSegRun t) xs ys) :
    List.Forall₂ (fun s t => eraseSegRun s = eraseSegRun t)
      (sandwich_merge gen k config xs).1
      (sandwich_merge gen2 k2 config ys).1 ∧
    (sandwich_merge gen k config xs).2.1.map eraseIntrIds =
      (sandwich_merge gen2 k2 config ys).2.1.map eraseIntrIds := by
  have hlen : xs.length = ys.length := hrel.length_eq
  unfold sandwich_merge
  rw [hlen]
  exact sandwich_loop_erase gen gen2 config (ys.length + 1) xs ys [] [] k
    k2 hrel rfl

theorem classify_erase_congr (config : SegmentationConfig) :
    ∀ {l l2 : List Segment},
      List.Forall₂ (fun s t => eraseSegRun s = eraseSegRun t) l l2 →
      List.Forall₂ (fun s t => eraseSegRun s = eraseSegRun t)
        (classify_segments config l) (classify_segments config l2) := by
  intro l l2 hrel
  induction hrel with
  | nil => exact List.Forall₂.nil
  | cons hst hrest ih =>
    rename_i s t l1 l3
    refine List.Forall₂.cons ?_ ih
    dsimp only
    have h3 : s.segment_type = t.segment_type :=
      congrArg (fun x => x.segment_type) hst
    have h4 : s.duration_secs = t.duration_secs :=
      congrArg (fun x => x.duration_secs) hst
    by_cases hcnd : s.segment_type = SegmentType.transitioning ∧
        (config.distracted_threshold_secs : Int) ≤ s.duration_secs
    · have hcnd2 : t.segment_type = SegmentType.transitioning ∧
          (config.distracted_threshold_secs : Int) ≤ t.duration_secs := by
        rw [← h3, ← h4]
        exact hcnd
      rw [if_pos hcnd, if_pos hcnd2]
      have e1 : eraseSegRun { s with segment_type := .distracted } =
          eraseSegRun { eraseSegRun s with segment_type := .distracted } :=
        rfl
      have e2 : eraseSegRun { t with segment_type := .distracted } =
          eraseSegRun { eraseSegRun t with segment_type := .distracted } :=
        rfl
      rw [e1, e2, hst]
    · have hcnd2 : ¬ (t.segment_type = SegmentType.transitioning ∧
          (config.distracted_threshold_secs : Int) ≤ t.duration_secs) := by
        rw [← h3, ← h4]
        exact hcnd
      rw [if_neg hcnd, if_neg hcnd2]
      exact hst

theorem score_erase_congr (config : SegmentationConfig)
    (rs : List ContextReading) :
    ∀ {l l2 : List Segment},
      List.Forall₂ (fun s t => eraseSegRun s = eraseSegRun t) l l2 →
      (l.map (score_segment config rs)).map eraseSegRun =
        (l2.map (score_segment config rs)).map eraseSegRun := by
  intro l l2 hrel
  induction hrel with
  | nil => rfl
  | cons hst hrest ih =>
    rename_i s t l1 l3
    simp only [List.map_cons, ih]
    have e1 : eraseSegRun (score_segment config rs s) =
        eraseSegRun (score_segment config rs (eraseSegRun s)) := rfl
    have e2 : eraseSegRun (score_segment config rs t) =
        eraseSegRun (score_segment config rs (eraseSegRun t)) := rfl
    rw [e1, e2, hst]

theorem create_initial_aux_erase (gen gen2 : Nat → String)
    (ord ord2 : Nat → List String → List String) :
    ∀ (groups acc : List ReadingGroup) (k k2 : Nat),
      List.Forall₂ (fun s t => eraseSegRun s = eraseSegRun t)
        ((create_initial_aux gen ord groups acc k).1.map
          SegmentWithReadings.segment)
        ((create_initial_aux gen2 ord2 groups acc k2).1.map
          SegmentWithReadings.segment) ∧
      (create_initial_aux gen ord groups acc k).1.map
        SegmentWithReadings.readings =
        (create_initial_aux gen2 ord2 groups acc k2).1.map
          SegmentWithReadings.readings := by
  intro groups
  induction groups with
  | nil =>
    intro acc k k2
    match acc with
    | [] => exact ⟨List.Forall₂.nil, rfl⟩
    | a :: rest =>
      exact ⟨List.Forall₂.cons rfl List.Forall₂.nil, rfl⟩
  | cons g gs ih =>
    intro acc k k2
    by_cases ht : g.is_transitioning
    · simp only [create_initial_aux, ht, if_true]
      exact ih (acc ++ [g]) k k2
    · simp only [create_initial_aux, ht, Bool.false_eq_true, if_false]
      match acc with
      | [] =>
        have ihr := ih [] (k + 1) (k2 + 1)
        exact ⟨List.Forall₂.cons rfl ihr.1,
          by simp only [List.map_cons, ihr.2]⟩
      | a :: rest =>
        have ihr := ih [] (k + 2) (k2 + 2)
        exact ⟨List.Forall₂.cons rfl (List.Forall₂.cons rfl ihr.1),
          by simp only [List.map_cons, ihr.2]⟩

theorem create_initial_erase (gen gen2 : Nat → String)
    (ord ord2 : Nat → List String → List String) (k k2 : Nat)
    (groups : List ReadingGroup) :
    List.Forall₂ (fun s t => eraseSegRun s = eraseSegRun t)
      ((create_initial_segments_with_readings gen ord k groups).1.map
        SegmentWithReadings.segment)
      ((create_initial_segments_with_readings gen2 ord2 k2 groups).1.map
        SegmentWithReadings.segment) ∧
    (create_initial_segments_with_readings gen ord k groups).1.map
      SegmentWithReadings.readings =
      (create_initial_segments_with_readings gen2 ord2 k2 groups).1.map
        SegmentWithReadings.readings := by
  match groups with
  | [] => exact ⟨List.Forall₂.nil, rfl⟩
  | g :: gs =>
    exact create_initial_aux_erase gen gen2 ord ord2 (g :: gs) [] k k2

theorem forall₂_erase_map {l l2 : List Segment}
    (h : List.Forall₂ (fun s t => eraseSegRun s = eraseSegRun t) l l2) :
    l.map eraseSegRun = l2.map eraseSegRun := by
  induction h with
  | nil => rfl
  | cons hst _ ih => simp only [List.map_cons, hst, ih]

theorem maxByCount_cons (count : String → Nat) (x : String)
    (xs : List String) :
    maxByCount count (x :: xs) = maxByCountFrom count x xs := rfl

theorem maxByCountFrom_cons (count : String → Nat) (b x : String)
    (xs : List String) :
    maxByCountFrom count b (x :: xs) =
      if count b ≤ count x then maxByCountFrom count x xs
      else maxByCountFrom count b xs := by
  by_cases h : count b ≤ count x
  · rw [if_pos h]
    show List.foldl
        (fun best t =>
          match best with
          | none => some t
          | some b2 => if count b2 ≤ count t then some t else some b2)
        (if count b ≤ count x then some x else some b) xs =
      maxByCountFrom count x xs
    rw [if_pos h]
    rfl
  · rw [if_neg h]
    show List.foldl
        (fun best t =>
          match best with
          | none => some t
          | some b2 => if count b2 ≤ count t then some t else some b2)
        (if count b ≤ count x then some x else some b) xs =
      maxByCountFrom count b xs
    rw [if_neg h]
    rfl

theorem maxByCountFrom_spec (count : String → Nat) :
    ∀ (order : List String) (b t : String),
      maxByCountFrom count b order = some t →
      (t = b ∨ t ∈ order) ∧ count b ≤ count t ∧
        ∀ u ∈ order, count u ≤ count t := by
  intro order
  induction order with
  | nil =>
    intro b t h
    have hb : some b = some t := h
    have hbt : b = t := Option.some_inj.mp hb
    subst hbt
    refine ⟨Or.inl rfl, le_rfl, ?_⟩
    intro u hu
    cases hu
  | cons x xs ih =>
    intro b t h
    rw [maxByCountFrom_cons] at h
    by_cases hbx : count b ≤ count x
    · rw [if_pos hbx] at h
      obtain ⟨hm, hle, hall⟩ := ih x t h
      refine ⟨?_, le_trans hbx hle, ?_⟩
      · rcases hm with rfl | hm
        · exact Or.inr (List.mem_cons_self _ _)
        · exact Or.inr (List.mem_cons_of_mem _ hm)
      · intro u hu
        rcases List.mem_cons.mp hu with rfl | hu2
        · exact hle
        · exact hall u hu2
    · rw [if_neg hbx] at h
      obtain ⟨hm, hle, hall⟩ := ih b t h
      refine ⟨?_, hle, ?_⟩
      · rcases hm with rfl | hm
        · exact Or.inl rfl
        · exact Or.inr (List.mem_cons_of_mem _ hm)
      · intro u hu
        rcases List.mem_cons.mp hu with rfl | hu2
        · exact le_trans (le_of_lt (not_le.mp hbx)) hle
        · exact hall u hu2

theorem maxByCount_spec (count : String → Nat) (order : List String)
    (t : String) (h : maxByCount count order = some t) :
    t ∈ order ∧ ∀ u ∈ order, count u ≤ count t := by
  match order with
  | [] => cases h
  | x :: xs =>
    rw [maxByCount_cons] at h
    obtain ⟨hm, hle, hall⟩ := maxByCountFrom_spec count xs x t h
    refine ⟨?_, ?_⟩
    · rcases hm with rfl | hm
      · exact List.mem_cons_self _ _
      · exact List.mem_cons_of_mem _ hm
    · intro u hu
      rcases List.mem_cons.mp hu with rfl | hu2
      · exact hle
      · exact hall u hu2

theorem mcwt_attains (order : List String → List String)
    (rs : List ContextReading) (t : String)
    (hperm : (order (titleKeys rs)).Perm (titleKeys rs))
    (h : most_common_window_title order rs = some t) :
    t ∈ titleKeys rs ∧
      ∀ u ∈ titleKeys rs, titleCount rs u ≤ titleCount rs t := by
  match rs with
  | [] => cases h
  | r :: rest =>
    have h2 : maxByCount (titleCount (r :: rest))
        (order (titleKeys (r :: rest))) = some t := h
    obtain ⟨hm, hall⟩ := maxByCount_spec _ _ _ h2
    refine ⟨hperm.mem_iff.mp hm, ?_⟩
    intro u hu
    exact hall u (hperm.mem_iff.mpr hu)

/-- C3 amended: two runs of the engine on the same ordered reading list
with the same configuration agree on every field of every Segment and
Interruption except the run-local nondeterminism: the freshly drawn
Uuid.new_v4 values (the segment id, and the interruption id together with
its segment_id reference), and each segment's window_title, whose
tie-break follows the run's randomized HashMap iteration orders. The
outputs are equal after blanking those fields, for any two id streams and
any two order oracles; moreover, for every iteration order that permutes
the key set, the chosen window_title is a title attaining the maximal
occurrence count among the readings handed to it, so window_title can
differ between runs only when several titles tie for that maximum. -/
theorem c3_amended (gen gen2 : Nat → String)
    (ord ord2 : Nat → List String → List String)
    (readings : List ContextReading) (config : SegmentationConfig) :
    ((segment_session gen ord readings config).1.map eraseSegRun =
        (segment_session gen2 ord2 readings config).1.map eraseSegRun ∧
      (segment_session gen ord readings config).2.map eraseIntrIds =
        (segment_session gen2 ord2 readings config).2.map eraseIntrIds) ∧
    ∀ (order : List String → List String) (rs : List ContextReading)
      (t : String),
      (order (titleKeys rs)).Perm (titleKeys rs) →
      most_common_window_title order rs = some t →
      t ∈ titleKeys rs ∧
        ∀ u ∈ titleKeys rs, titleCount rs u ≤ titleCount rs t := by
  refine ⟨?_, fun order rs t hp h => mcwt_attains order rs t hp h⟩
  by_cases h1 : readings.isEmpty
  · simp [segment_session, h1]
  · rw [Bool.not_eq_true] at h1
    have hsingle : ∀ sid : String,
        (create_single_segment_for_session gen ord readings sid
            config).1.map eraseSegRun =
          (create_single_segment_for_session gen2 ord2 readings sid
            config).1.map eraseSegRun ∧
        (create_single_segment_for_session gen ord readings sid
            config).2.map eraseIntrIds =
          (create_single_segment_for_session gen2 ord2 readings sid
            config).2.map eraseIntrIds := by
      intro sid
      unfold create_single_segment_for_session
      rw [h1]
      exact ⟨rfl, rfl⟩
    by_cases h2 : u64ofI64 (chronoNumSeconds
        ((readings.getLastD default).timestamp -
          (readings.headI).timestamp)) < config.min_segment_duration_secs
    · simp only [segment_session, h1, Bool.false_eq_true, if_false, h2,
        if_true]
      exact hsingle _
    · by_cases h3 : readings.all (fun r =>
          r.window_metadata.bundle_id =
            (readings.headI).window_metadata.bundle_id)
      · simp only [segment_session, h1, Bool.false_eq_true, if_false, h2,
          h3, if_true]
        exact hsingle _
      · rw [Bool.not_eq_true] at h3
        simp only [segment_session, h1, Bool.false_eq_true, if_false, h2,
          h3]
        have hinit := create_initial_erase gen gen2 ord ord2 0 0
          (detect_transitions config (group_readings readings))
        have hmerge := sandwich_merge_erase gen gen2 config
          (create_initial_segments_with_readings gen ord 0
            (detect_transitions config (group_readings readings))).2
          (create_initial_segments_with_readings gen2 ord2 0
            (detect_transitions config (group_readings readings))).2
          hinit.1
        have hcls := classify_erase_congr config hmerge.1
        have hreads : ((create_initial_segments_with_readings gen ord 0
            (detect_transitions config (group_readings
              readings))).1.map SegmentWithReadings.readings).flatten =
            ((create_initial_segments_with_readings gen2 ord2 0
              (detect_transitions config (group_readings
                readings))).1.map SegmentWithReadings.readings).flatten :=
          by rw [hinit.2]
        constructor
        · rw [hreads]
          exact score_erase_congr config _ hcls
        · exact hmerge.2

/-- C3 witness: the amended determinism at a concrete pair of runs
differing in both the id stream and the iteration orders, and the
max-count property of the chosen title at a concrete input whose two
titles tie. -/
theorem c3_amended_witness :
    (segment_session (fun n => "a" ++ toString n) ordId readingsWithGap
        SegmentationConfig.default).1.map eraseSegRun =
      (segment_session (fun n => "b" ++ toString n) ordRev readingsWithGap
        SegmentationConfig.default).1.map eraseSegRun ∧
    most_common_window_title (ordRev 0) readingsWithGap = some "Doc" ∧
    "Doc" ∈ titleKeys readingsWithGap ∧
    titleCount readingsWithGap "Web" ≤ titleCount readingsWithGap "Doc" :=
    by
  have h := c3_amended (fun n => "a" ++ toString n)
    (fun n => "b" ++ toString n) ordId ordRev readingsWithGap
    SegmentationConfig.default
  have hmax := h.2 (ordRev 0) readingsWithGap "Doc"
    (List.reverse_perm _) (by decide)
  exact ⟨h.1.1, by decide, hmax.1, hmax.2 "Web" (by decide)⟩

end Lefocus
